import Mathlib

/-!
Verification development for `gps_read.py`, a single-file NMEA-0183 reader.

The Python source is shallowly embedded below.  Conventions used throughout:

* Python `float` values are modelled as exact rationals (`ℚ`); the IEEE-754
  rounding of the original is idealized away.  String-to-float parsing models
  the decimal/exponent grammar of `float(str)`; the `inf`/`nan` literals,
  underscore digit separators and surrounding whitespace accepted by CPython
  are not modelled.
* Python exceptions that escape a function are modelled with `Except Unit`:
  `.error ()` means "an exception was raised".
* Python `dict`s are modelled as association lists with in-place update
  (`ains`), which reproduces dict insertion-order semantics; a key bound to
  Python `None` is `Value.none`, which is distinct from the key being absent.
* `datetime.datetime` objects are modelled by the record `DT`; the constructor
  validation (raising `ValueError` on out-of-range components) is `mkDatetime`.
-/

namespace GpsRead

/-! ### Character and string primitives (ASCII fragments of the Python ones) -/

def isDigitA (c : Char) : Bool := 48 ≤ c.toNat && c.toNat ≤ 57

def isUpperA (c : Char) : Bool := 65 ≤ c.toNat && c.toNat ≤ 90

def isUpAlnum (c : Char) : Bool := isUpperA c || isDigitA c

def isHexUp (c : Char) : Bool := isDigitA c || (65 ≤ c.toNat && c.toNat ≤ 70)

def pyUpperChar (c : Char) : Char :=
  if 97 ≤ c.toNat ∧ c.toNat ≤ 122 then Char.ofNat (c.toNat - 32) else c

def pyUpper (s : String) : String := String.mk (s.toList.map pyUpperChar)

def digitVal (c : Char) : ℕ := c.toNat - 48

def natOfDigits (l : List Char) : ℕ := l.foldl (fun a c => 10 * a + digitVal c) 0

/-! ### Kernel-reducible rational arithmetic

The Batteries arithmetic on `ℚ` is marked irreducible, which blocks `decide`
on concrete computations.  The wrappers below compute the same values (see
the `qadd_eq`/`qsub_eq`/`qmul_eq`/`qdiv_eq` theorems later in the file)
through `mkRat`, which does reduce; the embedding uses them wherever the
Python source does float arithmetic. -/

def qadd (a b : ℚ) : ℚ := mkRat (a.num * b.den + b.num * a.den) (a.den * b.den)

def qsub (a b : ℚ) : ℚ := mkRat (a.num * b.den - b.num * a.den) (a.den * b.den)

def qmul (a b : ℚ) : ℚ := mkRat (a.num * b.num) (a.den * b.den)

def qdiv (a b : ℚ) : ℚ := qmul a (Rat.divInt b.den b.num)

/-- Python `str.isdigit` restricted to ASCII (non-ASCII digit characters are
not modelled). -/
def pyIsdigit (s : String) : Bool := !s.toList.isEmpty && s.toList.all isDigitA

def pyIntDigits (s : String) : ℕ := natOfDigits s.toList

/-- Python `int(str)`: optional sign followed by decimal digits; returns
`Option.none` where CPython raises `ValueError`. -/
def pyInt? (s : String) : Option ℤ :=
  match s.toList with
  | [] => Option.none
  | c :: r =>
    if c = '-' then
      if !r.isEmpty && r.all isDigitA then some (-(natOfDigits r : ℤ)) else Option.none
    else if c = '+' then
      if !r.isEmpty && r.all isDigitA then some ((natOfDigits r : ℤ)) else Option.none
    else if (c :: r).all isDigitA then some ((natOfDigits (c :: r) : ℤ)) else Option.none

def spanDigits (l : List Char) : List Char × List Char :=
  (l.takeWhile isDigitA, l.dropWhile isDigitA)

def mulPow10 (q : ℚ) (e : ℤ) : ℚ :=
  if 0 ≤ e then qmul q (mkRat ((10 : ℤ) ^ e.toNat) 1) else qdiv q (mkRat ((10 : ℤ) ^ (-e).toNat) 1)

def mantissaOf (ip fp : List Char) : ℚ :=
  mkRat (natOfDigits (ip ++ fp) : ℤ) (10 ^ fp.length)

/-- Python `float(str)` over exact rationals: optional sign, digits with an
optional fraction, optional decimal exponent.  Returns `Option.none` where
CPython raises `ValueError`. -/
def pyFloat? (s : String) : Option ℚ :=
  let l := s.toList
  let p1 : ℚ × List Char :=
    match l with
    | '-' :: r => (-1, r)
    | '+' :: r => (1, r)
    | _ => (1, l)
  let sgn := p1.1
  let p2 := spanDigits p1.2
  let ip := p2.1
  let p3 : List Char × List Char :=
    match p2.2 with
    | '.' :: r => spanDigits r
    | _ => ([], p2.2)
  let fp := p3.1
  if ip.isEmpty && fp.isEmpty then Option.none
  else
    match p3.2 with
    | [] => some (qmul sgn (mantissaOf ip fp))
    | e :: r =>
      if e = 'e' ∨ e = 'E' then
        let p4 : ℤ × List Char :=
          match r with
          | '-' :: r2 => (-1, r2)
          | '+' :: r2 => (1, r2)
          | _ => (1, r)
        let p5 := spanDigits p4.2
        if p5.1.isEmpty || !p5.2.isEmpty then Option.none
        else some (mulPow10 (qmul sgn (mantissaOf ip fp)) (p4.1 * (natOfDigits p5.1 : ℤ)))
      else Option.none

/-- Python `int(float)`: truncation toward zero. -/
def pyTrunc (q : ℚ) : ℤ := if 0 ≤ q then ⌊q⌋ else ⌈q⌉

/-- Python slice `s[a:b]` (for `0 ≤ a ≤ b`). -/
def pySlice (s : String) (a b : ℕ) : String := String.mk ((s.toList.drop a).take (b - a))

/-- Python slice `s[a:]`. -/
def pyDropStr (s : String) (a : ℕ) : String := String.mk (s.toList.drop a)

def isSpaceA (c : Char) : Bool :=
  c = ' ' || c = '\t' || c = '\n' || c = '\r' || c.toNat = 11 || c.toNat = 12

def stripL (l : List Char) : List Char :=
  ((l.dropWhile isSpaceA).reverse.dropWhile isSpaceA).reverse

/-- Python `str.strip()` (ASCII whitespace). -/
def pyStrip (s : String) : String := String.mk (stripL s.toList)

/-- Python `s[-3:]`. -/
def last3 (s : String) : String := String.mk (s.toList.drop (s.toList.length - 3))

/-- Python `s[:-3]`. -/
def dropLast3 (s : String) : String := String.mk (s.toList.take (s.toList.length - 3))

/-- Python `str.replace` for a nonempty pattern, fuelled by the input length. -/
def replaceAllAux (pat rep : List Char) : ℕ → List Char → List Char
  | 0, l => l
  | f + 1, l =>
    match l with
    | [] => []
    | c :: r =>
      if pat.isPrefixOf l then rep ++ replaceAllAux pat rep f (l.drop pat.length)
      else c :: replaceAllAux pat rep f r

def pyReplace (s pat rep : String) : String :=
  String.mk (replaceAllAux pat.toList rep.toList s.toList.length s.toList)

/-! ### `datetime` model -/

structure DT where
  year : ℤ
  month : ℤ
  day : ℤ
  hour : ℤ
  minute : ℤ
  second : ℤ
deriving DecidableEq, Repr

def isLeap (y : ℤ) : Bool := (y % 4 == 0 && y % 100 != 0) || (y % 400 == 0)

def daysInMonth (y m : ℤ) : ℤ :=
  if m = 2 then (if isLeap y then 29 else 28)
  else if m = 4 ∨ m = 6 ∨ m = 9 ∨ m = 11 then 30 else 31

/-- `datetime.datetime(y, mo, d, h, mi, s, tzinfo=utc)`: constructor validation;
`.error ()` models the `ValueError` it raises on out-of-range components. -/
def mkDatetime (y mo d h mi s : ℤ) : Except Unit DT :=
  if 1 ≤ y ∧ y ≤ 9999 ∧ 1 ≤ mo ∧ mo ≤ 12 ∧ 1 ≤ d ∧ d ≤ daysInMonth y mo
      ∧ 0 ≤ h ∧ h ≤ 23 ∧ 0 ≤ mi ∧ mi ≤ 59 ∧ 0 ≤ s ∧ s ≤ 59
  then .ok ⟨y, mo, d, h, mi, s⟩ else .error ()

/-- `now.replace(hour=h, minute=mi, second=s, microsecond=0)` (validating). -/
def replaceHMS (now : DT) (h mi s : ℤ) : Except Unit DT :=
  if 0 ≤ h ∧ h ≤ 23 ∧ 0 ≤ mi ∧ mi ≤ 59 ∧ 0 ≤ s ∧ s ≤ 59
  then .ok { now with hour := h, minute := mi, second := s } else .error ()

def pad2 (n : ℤ) : String := if 0 ≤ n ∧ n < 10 then "0" ++ toString n else toString n

def pad4 (n : ℤ) : String :=
  if 0 ≤ n ∧ n < 10 then "000" ++ toString n
  else if 0 ≤ n ∧ n < 100 then "00" ++ toString n
  else if 0 ≤ n ∧ n < 1000 then "0" ++ toString n
  else toString n

/-- `t.isoformat()` for a UTC `datetime` with zero microseconds. -/
def isoformat (t : DT) : String :=
  pad4 t.year ++ "-" ++ pad2 t.month ++ "-" ++ pad2 t.day ++ "T" ++
    pad2 t.hour ++ ":" ++ pad2 t.minute ++ ":" ++ pad2 t.second ++ "+00:00"

/-- `t.isoformat().replace('+00:00', 'Z')` — the rendering used for `utc_time`. -/
def isoZ (t : DT) : String := pyReplace (isoformat t) "+00:00" "Z"

/-! ### Field converters (`dm_to_deg`, `knots_to_mps`, `safe_float`,
`parse_time_date`) -/

def dm_to_deg (dm hemi : String) : Option ℚ :=
  if dm = "" then Option.none
  else
    match pyFloat? dm with
    | Option.none => Option.none
    | some val =>
      let deg : ℤ := ⌊qdiv val 100⌋
      let minutes : ℚ := qsub val (qmul (deg : ℚ) 100)
      let dec : ℚ := qadd (deg : ℚ) (qdiv minutes 60)
      some (if hemi = "S" ∨ hemi = "W" then -dec else dec)

def knots_to_mps (kn : String) : Option ℚ :=
  (pyFloat? kn).map (fun v => qmul v (mkRat 514444 1000000))

def safe_float (x : String) : Option ℚ := pyFloat? x

/-- `parse_time_date(utc_hms, ddmmyy)`.  The wall clock used by the dateless
branch (`datetime.datetime.now(utc)`) is passed in as `now`.  `.error ()`
models an uncaught `ValueError` from `int`, `float` or the `datetime`
constructor; `.ok Option.none` models `return None`. -/
def parse_time_date (utc_hms ddmmyy : String) (now : DT) : Except Unit (Option DT) :=
  if utc_hms = "" then .ok Option.none
  else
    match pyInt? (pySlice utc_hms 0 2), pyInt? (pySlice utc_hms 2 4),
        pyFloat? (pyDropStr utc_hms 4) with
    | some hh, some mm, some sf =>
      let ss := pyTrunc sf
      if ddmmyy.toList.length = 6 then
        match pyInt? (pySlice ddmmyy 0 2), pyInt? (pySlice ddmmyy 2 4),
            pyInt? (pySlice ddmmyy 4 6) with
        | some d, some mo, some yy =>
          let y := if yy < 80 then 2000 + yy else 1900 + yy
          (mkDatetime y mo d hh mm ss).map some
        | _, _, _ => .error ()
      else (replaceHMS now hh mm ss).map some
    | _, _, _ => .error ()

/-! ### Python dict model -/

/-- The heterogeneous values stored in update/state dicts.  `Value.none` is
Python `None` stored under a key; `Value.gsv` is the nested per-constellation
mapping, whose entries `{'in_view': n}` are single-key dicts modelled by the
count `n` itself. -/
inductive Value where
  | num (q : ℚ)
  | int (n : ℤ)
  | str (s : String)
  | bool (b : Bool)
  | none
  | gsv (m : List (String × ℕ))
deriving DecidableEq, Repr

abbrev Dict := List (String × Value)

/-- Dict assignment `d[k] = v`: in-place update of an existing binding, else
append (Python dict insertion-order semantics). -/
def ains {α : Type} (k : String) (v : α) : List (String × α) → List (String × α)
  | [] => [(k, v)]
  | (k', v') :: r => if k' = k then (k, v) :: r else (k', v') :: ains k v r

/-- Dict lookup `d.get(k)`. -/
def alook {α : Type} (k : String) : List (String × α) → Option α
  | [] => Option.none
  | (k', v') :: r => if k' = k then some v' else alook k r

def akeys {α : Type} (d : List (String × α)) : List String := d.map Prod.fst

def ainsAll {α : Type} (cur l : List (String × α)) : List (String × α) :=
  l.foldl (fun a kv => ains kv.1 kv.2 a) cur

/-- Wrap an optional float the way the decoder stores it (`None` on failure). -/
def vnum (o : Option ℚ) : Value :=
  match o with
  | some q => .num q
  | Option.none => Value.none

/-! ### Sentence decoder (`parse_sentence`) -/

/-- `parse_sentence(talker_sen, fields)`.  `now` is the wall clock consumed by
`parse_time_date` when a sentence carries no date.  `.error ()` models an
uncaught exception escaping the function (there is no try/except around the
call site in `main`). -/
def parse_sentence (talker_sen : String) (fields : List String) (now : DT) :
    Except Unit Dict :=
  let tp := last3 talker_sen
  let talker := dropLast3 talker_sen
  let fd := fun i => fields.getD i ""
  if tp = "RMC" then
    if 11 ≤ fields.length then
      (parse_time_date (fd 0) (fd 8) now).map (fun t =>
        let u : Dict := []
        let u := match t with
          | some tv => ains "utc_time" (.str (isoZ tv)) u
          | Option.none => u
        let u := ains "fix_ok" (.bool (decide (fd 1 = "A"))) u
        let u := match dm_to_deg (fd 2) (fd 3) with
          | some la => ains "lat" (.num la) u
          | Option.none => u
        let u := match dm_to_deg (fd 4) (fd 5) with
          | some lo => ains "lon" (.num lo) u
          | Option.none => u
        let u := match (if fd 6 ≠ "" then knots_to_mps (fd 6) else Option.none) with
          | some sp => ains "speed_kmh" (.num (qmul sp (mkRat 18 5))) (ains "speed_mps" (.num sp) u)
          | Option.none => u
        let u := ains "course_deg" (vnum (safe_float (fd 7))) u
        if 12 ≤ fields.length ∧ fd 11 ≠ "" then ains "mode" (.str (fd 11)) u else u)
    else .ok []
  else if tp = "GGA" then
    if 12 ≤ fields.length then
      (parse_time_date (fd 0) "" now).map (fun t =>
        let u : Dict := []
        let u := match t with
          | some tv => ains "utc_time" (.str (isoZ tv)) u
          | Option.none => u
        let u := match dm_to_deg (fd 1) (fd 2) with
          | some la => ains "lat" (.num la) u
          | Option.none => u
        let u := match dm_to_deg (fd 3) (fd 4) with
          | some lo => ains "lon" (.num lo) u
          | Option.none => u
        let u := ains "fix_quality"
          (if pyIsdigit (fd 5) then .int (pyIntDigits (fd 5) : ℤ) else Value.none) u
        let u := ains "num_sats"
          (if pyIsdigit (fd 6) then .int (pyIntDigits (fd 6) : ℤ) else Value.none) u
        let u := ains "hdop" (vnum (safe_float (fd 7))) u
        let u := ains "alt_m" (vnum (safe_float (fd 8))) u
        let u := ains "geoid_sep_m"
          (if 10 < fields.length then vnum (safe_float (fd 10)) else Value.none) u
        let u := ains "age_corrections_s"
          (if 12 < fields.length then vnum (safe_float (fd 12)) else Value.none) u
        ains "dgps_id" (if 13 < fields.length then .str (fd 13) else Value.none) u)
    else .ok []
  else if tp = "GNS" then
    if 9 ≤ fields.length then
      (parse_time_date (fd 0) "" now).map (fun t =>
        let u : Dict := []
        let u := match t with
          | some tv => ains "utc_time" (.str (isoZ tv)) u
          | Option.none => u
        let u := match dm_to_deg (fd 1) (fd 2) with
          | some la => ains "lat" (.num la) u
          | Option.none => u
        let u := match dm_to_deg (fd 3) (fd 4) with
          | some lo => ains "lon" (.num lo) u
          | Option.none => u
        let u := ains "mode" (.str (fd 5)) u
        let u := ains "num_sats"
          (if pyIsdigit (fd 6) then .int (pyIntDigits (fd 6) : ℤ) else Value.none) u
        let u := ains "hdop" (vnum (safe_float (fd 7))) u
        let u := ains "alt_m" (vnum (safe_float (fd 8))) u
        if 9 < fields.length then ains "geoid_sep_m" (vnum (safe_float (fd 9))) u else u)
    else .ok []
  else if tp = "GSA" then
    .ok (if 17 ≤ fields.length then
      ains "vdop" (vnum (safe_float (fd 16)))
        (ains "hdop" (vnum (safe_float (fd 15)))
          (ains "pdop" (vnum (safe_float (fd 14)))
            (ains "fix_type"
              (if pyIsdigit (fd 1) then .int (pyIntDigits (fd 1) : ℤ) else Value.none) [])))
    else [])
  else if tp = "GSV" then
    .ok (if 3 ≤ fields.length ∧ pyIsdigit (fd 2) then
      [("gsv", .gsv [(talker, pyIntDigits (fd 2))])]
    else [])
  else if tp = "VTG" then
    .ok (if 7 ≤ fields.length then
      let u : Dict := ains "course_deg" (vnum (safe_float (fd 0))) []
      let u :=
        if fd 4 ≠ "" then
          match knots_to_mps (fd 4) with
          | some mps => ains "speed_kmh" (.num (qmul mps (mkRat 18 5))) (ains "speed_mps" (.num mps) u)
          | Option.none => u
        else if fd 6 ≠ "" then
          match safe_float (fd 6) with
          | some kmh => ains "speed_mps" (.num (qdiv kmh (mkRat 18 5))) (ains "speed_kmh" (.num kmh) u)
          | Option.none => u
        else u
      if 9 ≤ fields.length ∧ fd 8 ≠ "" then ains "mode" (.str (fd 8)) u else u
    else [])
  else if tp = "GST" then
    if 5 ≤ fields.length then
      ((if fd 0 ≠ "" then parse_time_date (fd 0) "" now else .ok Option.none).map (fun t =>
        let u : Dict := []
        let u := match t with
          | some tv => ains "utc_time" (.str (isoZ tv)) u
          | Option.none => u
        let u := ains "rms_range_err_m" (vnum (safe_float (fd 1))) u
        let u := ains "sd_lat_m" (vnum (safe_float (fd 2))) u
        let u := ains "sd_lon_m" (vnum (safe_float (fd 3))) u
        ains "sd_alt_m" (vnum (safe_float (fd 4))) u))
    else .ok []
  else .ok []

/-! ### State merger (`merge_updates`) -/

def gsvOf (v : Value) : List (String × ℕ) :=
  match v with
  | .gsv m => m
  | _ => []

/-- The nested per-constellation mapping currently held under `'gsv'`
(`state.setdefault('gsv', ...)` with an empty-dict default); the state's
`'gsv'` key only ever holds a `Value.gsv`, so the other case is unreachable
in practice. -/
def stGsv (st : Dict) : List (String × ℕ) :=
  match alook "gsv" st with
  | some w => gsvOf w
  | Option.none => []

/-- One iteration of the `for k, v in updates.items()` loop. -/
def merge1 (st : Dict) (kv : String × Value) : Dict :=
  if kv.1 = "gsv" then ains "gsv" (.gsv (ainsAll (stGsv st) (gsvOf kv.2))) st
  else ains kv.1 kv.2 st

/-- `merge_updates(state, updates)`; `now` is the `time.time()` sample written
to `'last_update'`. -/
def merge_updates (state updates : Dict) (now : ℚ) : Dict :=
  ains "last_update" (.num now) (updates.foldl merge1 state)

/-- The `for` loop of `merge_updates` in isolation. -/
def mergeCore (s u : Dict) : Dict := u.foldl merge1 s

/-- Facts true of every dict produced by the decoder: distinct keys (it is a
Python dict), no `'last_update'` key (only the merger writes it), and a
well-formed nested mapping under `'gsv'`. -/
def GoodUpdate (u : Dict) : Prop :=
  (akeys u).Nodup ∧ "last_update" ∉ akeys u ∧ ∀ kv ∈ u, (akeys (gsvOf kv.2)).Nodup

instance : DecidablePred GoodUpdate := by
  intro u
  unfold GoodUpdate
  infer_instance

/-- A fixed wall-clock sample used to instantiate the `now` parameter in
concrete computations. -/
def now0 : DT := ⟨2025, 10, 12, 0, 0, 0⟩

instance {ε α : Type} [DecidableEq ε] [DecidableEq α] : DecidableEq (Except ε α) :=
  fun a b =>
    match a, b with
    | .error e, .error e' =>
      if h : e = e' then isTrue (by rw [h]) else isFalse (fun c => h (Except.error.inj c))
    | .ok x, .ok y =>
      if h : x = y then isTrue (by rw [h]) else isFalse (fun c => h (Except.ok.inj c))
    | .error _, .ok _ => isFalse (fun c => Except.noConfusion c)
    | .ok _, .error _ => isFalse (fun c => Except.noConfusion c)

/-- Did this call return normally (no exception)? -/
def exOkB {α : Type} (e : Except Unit α) : Bool :=
  match e with
  | .ok _ => true
  | .error _ => false

/-- The time/date fields of a sentence parse cleanly — exactly the condition
under which the decoder's (unguarded) calls to `parse_time_date` do not
raise.  Sentence types without a timestamp field impose no condition. -/
def timeOK (talker_sen : String) (fields : List String) (now : DT) : Prop :=
  (last3 talker_sen = "RMC" → 11 ≤ fields.length →
    exOkB (parse_time_date (fields.getD 0 "") (fields.getD 8 "") now) = true) ∧
  (last3 talker_sen = "GGA" → 12 ≤ fields.length →
    exOkB (parse_time_date (fields.getD 0 "") "" now) = true) ∧
  (last3 talker_sen = "GNS" → 9 ≤ fields.length →
    exOkB (parse_time_date (fields.getD 0 "") "" now) = true) ∧
  (last3 talker_sen = "GST" → 5 ≤ fields.length → fields.getD 0 "" ≠ "" →
    exOkB (parse_time_date (fields.getD 0 "") "" now) = true)

instance (ts : String) (fs : List String) (now : DT) : Decidable (timeOK ts fs now) := by
  unfold timeOK
  infer_instance


/-! ### Checksum and frame validator (`NMEA_RE`, `nmea_checksum`) -/

/-- XOR of the code points of a character list (`nmea_checksum`'s loop). -/
def xorFold (l : List Char) : ℕ := l.foldl (fun a ch => Nat.xor a ch.toNat) 0

def hexDig (n : ℕ) : Char := if n < 10 then Char.ofNat (48 + n) else Char.ofNat (55 + n)

/-- Uppercase hex digits of `n`, most significant first, fuelled (all checksum
values are far below `16 ^ 8`). -/
def hexRev (fuel n : ℕ) : List Char :=
  match fuel with
  | 0 => []
  | f + 1 => if n = 0 then [] else hexDig (n % 16) :: hexRev f (n / 16)

/-- Python `f-string` formatting with the `02X` spec: at least two uppercase
hex digits, zero-padded. -/
def pyHexX2 (n : ℕ) : List Char :=
  let ds := (hexRev 8 n).reverse
  List.replicate (2 - ds.length) '0' ++ ds

def nmea_checksumL (l : List Char) : List Char := pyHexX2 (xorFold l)

def nmea_checksum (s : String) : String := String.mk (nmea_checksumL s.toList)

/-- Split a list at the first occurrence of `c`. -/
def splitFirst (c : Char) : List Char → Option (List Char × List Char)
  | [] => Option.none
  | x :: xs => if x = c then some ([], xs) else (splitFirst c xs).map (fun p => (x :: p.1, p.2))

/-- Remove one leading `c`, if present. -/
def chopIf (c : Char) : List Char → List Char
  | [] => []
  | x :: t => if x = c then t else x :: t

/-- The regex group "2 to 3 chars of [A-Z0-9], then 3 chars of [A-Z]" matched
against a whole comma-free segment. -/
def talkerOK (l : List Char) : Bool :=
  (l.length = 5 || l.length = 6) && (l.take (l.length - 3)).all isUpAlnum
    && (l.drop (l.length - 3)).all isUpperA

/-- The match of `NMEA_RE` (dollar sign; group 1 as in `talkerOK`; a comma;
group 2 = greedy dot-star; a literal star; group 3 = two uppercase hex
digits; optional CR, optional LF; end).  The greedy `(.*)` stops at the last
`*` that is followed by exactly two uppercase hex digits and the permitted
tail; this is computed here by working from the reversed tail.  `.` does not
match a newline, hence the newline-freedom test on the body.  Python's `$`
(the pattern uses `re.match`, not `fullmatch`) matches at the end of the
string or just before one final newline, so after the checksum digits the
accepted tails are `\r?\n?` optionally followed by one more `\n`: from the
right, chop one optional `\n` (the one `$` may precede), one optional `\n`
(from `\n?`), then one optional `\r` (from `\r?`). -/
def nmeaMatchL (s : List Char) : Option (List Char × List Char × List Char) :=
  match s with
  | [] => Option.none
  | c :: rest =>
    if c = '$' then
      match splitFirst ',' rest with
      | Option.none => Option.none
      | some (g1, tail0) =>
        if talkerOK g1 then
          match chopIf '\r' (chopIf '\n' (chopIf '\n' tail0.reverse)) with
          | h2 :: h1 :: star :: bodyRev =>
            if star = '*' && isHexUp h1 && isHexUp h2 && bodyRev.all (fun ch => ch != '\n') then
              some (g1, bodyRev.reverse, [h1, h2])
            else Option.none
          | _ => Option.none
        else Option.none
    else Option.none

def nmeaMatch (s : String) : Option (String × String × String) :=
  (nmeaMatchL s.toList).map (fun g => (String.mk g.1, String.mk g.2.1, String.mk g.2.2))

/-- The accept test of `main`'s validator on one (already stripped) line:
`NMEA_RE` matches and `m.group(3).upper()` equals
`nmea_checksum(m.group(1) + ',' + m.group(2))`. -/
def nmea_accept (s : String) : Bool :=
  match nmeaMatchL s.toList with
  | some (g1, body, hx) => hx.map pyUpperChar == nmea_checksumL (g1 ++ [','] ++ body)
  | Option.none => false

/-- Python `"a,b,,c".split(',')` on character lists (keeps empty segments). -/
def splitCommaAux : List Char → List Char → List (List Char)
  | [], acc => [acc.reverse]
  | c :: r, acc => if c = ',' then acc.reverse :: splitCommaAux r [] else splitCommaAux r (c :: acc)

/-- Line handling of `main`'s loop body up to field extraction: strip, check
the leading `$`, match `NMEA_RE`, verify the checksum, split the fields. -/
def frameOK (raw : String) : Option (String × List String) :=
  let s := stripL raw.toList
  match s with
  | [] => Option.none
  | c :: _ =>
    if c = '$' then
      match nmeaMatchL s with
      | some (g1, body, hx) =>
        if hx.map pyUpperChar == nmea_checksumL (g1 ++ [','] ++ body) then
          some (String.mk g1, (splitCommaAux body []).map String.mk)
        else Option.none
      | Option.none => Option.none
    else Option.none

/-! ### Main-loop model: merge pipeline and emission gate.

The loop in `main` is modelled as a step function over an input trace; each
trace element carries the raw line together with the `time.time()` and
`datetime.now(utc)` samples of that iteration (the few clock samples taken
within one iteration are identified).  A step models one pass through the
loop body: validate, decode, merge, then the 1-second cadence gate.  The
rendering itself is abstracted: an `Emission` records that a record was
produced (as in the text/JSON modes, which always render once the gate
passes) together with the state snapshot it rendered. -/

structure LoopCfg where
  pmode : Bool
  once : Bool
deriving DecidableEq, Repr

structure LoopSt where
  state : Dict
  last_emit : ℚ
deriving DecidableEq, Repr

structure Inp where
  line : String
  t : ℚ
  nowDT : DT

structure Emission where
  t : ℚ
  snapshot : Dict
deriving DecidableEq, Repr

/-- Python truthiness of `state.get('utc_time')`. -/
def pyTruthy (o : Option Value) : Bool :=
  match o with
  | Option.none => false
  | some Value.none => false
  | some (.str s) => !(s == "")
  | some (.num q) => decide (q ≠ 0)
  | some (.int n) => decide (n ≠ 0)
  | some (.bool b) => b
  | some (.gsv m) => !m.isEmpty

/-- `state.get(k) is not None`. -/
def pyIsNotNone (o : Option Value) : Bool :=
  match o with
  | some Value.none => false
  | some _ => true
  | Option.none => false

/-- The completeness test of the emission gate:
`state.get('lat') is not None and state.get('lon') is not None and state.get('utc_time')`. -/
def completeB (st : Dict) : Bool :=
  pyIsNotNone (alook "lat" st) && pyIsNotNone (alook "lon" st) && pyTruthy (alook "utc_time" st)

/-- One iteration of the reader loop.  In the non-`once` loop the gate is
`args.partial or complete`; in the `once` loop it is `complete` alone. -/
def stepLoop (cfg : LoopCfg) (ls : LoopSt) (inp : Inp) : Except Unit (LoopSt × Option Emission) :=
  match frameOK inp.line with
  | Option.none => .ok (ls, Option.none)
  | some (ts, fs) =>
    match parse_sentence ts fs inp.nowDT with
    | .error e => .error e
    | .ok u =>
      let st := if u = [] then ls.state else merge_updates ls.state u inp.t
      if 1 ≤ qsub inp.t ls.last_emit then
        let gate := if cfg.once then completeB st else (cfg.pmode || completeB st)
        .ok (⟨st, inp.t⟩, if gate then some ⟨inp.t, st⟩ else Option.none)
      else .ok (⟨st, ls.last_emit⟩, Option.none)

/-- Run the loop over a finite input trace, collecting emissions in order.
`n` counts emissions so far; the `once` loop stops once two records have been
collected (`if len(outputs) >= 2: break`). -/
def runLoop (cfg : LoopCfg) : ℕ → LoopSt → List Inp → Except Unit (LoopSt × List Emission)
  | _, ls, [] => .ok (ls, [])
  | n, ls, inp :: rest =>
    match stepLoop cfg ls inp with
    | .error e => .error e
    | .ok (ls', Option.none) => runLoop cfg n ls' rest
    | .ok (ls', some em) =>
      if cfg.once = true ∧ 2 ≤ n + 1 then .ok (ls', [em])
      else
        match runLoop cfg (n + 1) ls' rest with
        | .error e => .error e
        | .ok (lsf, es) => .ok (lsf, em :: es)

/-- Emission times climb by at least one second: each emission in the list is
at least one second after the bound (the `last_emit` value before it). -/
def gapOK (b : ℚ) : List Emission → Prop
  | [] => True
  | e :: r => qadd b 1 ≤ e.t ∧ gapOK e.t r

/-- The acceptance predicate asserted by claim C3, modelled from the claim's
words: shape `$TALKER-SENTENCE,body*HH` with a 2-3 letter talker, a 3-letter
sentence type, optional trailing CR/LF, and a two-hex-digit checksum that is
compared case-insensitively against the XOR of the bytes between `$` and `*`
rendered as two uppercase hex digits. -/
def specShapeClaimed (s : String) : Prop :=
  ∃ t1 t2 body h1 h2 tail,
    s.toList = '$' :: (t1 ++ t2 ++ [','] ++ body ++ ['*', h1, h2] ++ tail) ∧
    (t1.length = 2 ∨ t1.length = 3) ∧ t1.all isUpperA = true ∧
    t2.length = 3 ∧ t2.all isUpperA = true ∧
    body.all (fun ch => ch != '\n') = true ∧
    (isHexUp (pyUpperChar h1) && isHexUp (pyUpperChar h2)) = true ∧
    (tail = [] ∨ tail = ['\r'] ∨ tail = ['\n'] ∨ tail = ['\r', '\n']) ∧
    [pyUpperChar h1, pyUpperChar h2] = nmea_checksumL (t1 ++ t2 ++ [','] ++ body)

/-- The amended acceptance predicate: as the claim, except that the talker may
contain digits (the regex class is `[A-Z0-9]`), the transmitted checksum
digits must themselves be uppercase (the regex class is `[0-9A-F]`, so a
lowercase checksum never matches and the `.upper()` call is vacuous), the
body may not contain a newline, and — because `$` also matches just before
one final newline — the trailing `\r?\n?` may be followed by one extra
newline. -/
def specShapeAmended (s : String) : Prop :=
  ∃ t1 t2 body h1 h2 tail,
    s.toList = '$' :: (t1 ++ t2 ++ [','] ++ body ++ ['*', h1, h2] ++ tail) ∧
    (t1.length = 2 ∨ t1.length = 3) ∧ t1.all isUpAlnum = true ∧
    t2.length = 3 ∧ t2.all isUpperA = true ∧
    body.all (fun ch => ch != '\n') = true ∧
    (isHexUp h1 && isHexUp h2) = true ∧
    (tail = [] ∨ tail = ['\r'] ∨ tail = ['\n'] ∨ tail = ['\r', '\n'] ∨
      tail = ['\n', '\n'] ∨ tail = ['\r', '\n', '\n']) ∧
    [h1, h2] = nmea_checksumL (t1 ++ t2 ++ [','] ++ body)

/-- The state after the decode-and-merge phase of one loop iteration
(`if updates: merge_updates(state, updates)`). -/
def stAfter (ls : LoopSt) (u : Dict) (t : ℚ) : Dict :=
  if u = [] then ls.state else merge_updates ls.state u t

/-- The emission gate: the `once` loop tests completeness alone, the
continuous loop tests `args.partial or complete`. -/
def gateB (cfg : LoopCfg) (st : Dict) : Bool :=
  if cfg.once then completeB st else (cfg.pmode || completeB st)

/-- A complete RMC frame sampled at local time 5. -/
def inpRMC : Inp :=
  ⟨"$GPRMC,123519,A,4807.038,N,01131.000,E,0.5,54.7,230394,,*2E", 5, now0⟩

/-- A GSV frame (no lat/lon/utc, so the merged state stays incomplete). -/
def inpGSV : Inp := ⟨"$GPGSV,3,1,07*7C", 5, now0⟩

/-- The update decoded from `inpGSV`. -/
def uGSV : Dict :=
  match parse_sentence "GPGSV" ["3", "1", "07"] now0 with
  | .ok u => u
  | .error _ => []

/-- A one-frame run of the continuous non-partial loop on `inpRMC`. -/
def runA : Except Unit (LoopSt × List Emission) :=
  runLoop ⟨false, false⟩ 0 ⟨[], 0⟩ [inpRMC]

/-- Final loop state of `runA`. -/
def lsfA : LoopSt :=
  match runA with
  | .ok (ls, _) => ls
  | .error _ => ⟨[], 0⟩

/-- Emission list of `runA`. -/
def emsA : List Emission :=
  match runA with
  | .ok (_, es) => es
  | .error _ => []

/-! ### Theorems.  First, the promised equivalences between the reducible
rational operations and the standard ones. -/

theorem qadd_eq (a b : ℚ) : qadd a b = a + b := (Rat.add_def' a b).symm

theorem qsub_eq (a b : ℚ) : qsub a b = a - b := (Rat.sub_def' a b).symm

theorem qmul_eq (a b : ℚ) : qmul a b = a * b := by
  rw [qmul, Rat.mul_def, Rat.normalize_eq_mkRat]

theorem qdiv_eq (a b : ℚ) : qdiv a b = a / b := by
  rw [qdiv, qmul_eq, division_def]
  congr 1
  rw [← Rat.inv_def]
  rfl

/-! ### Association-list (dict) lemmas -/

theorem merge_updates_eq (s u : Dict) (t : ℚ) :
    merge_updates s u t = ains "last_update" (.num t) (mergeCore s u) := rfl

theorem akeys_nil {α : Type} : akeys ([] : List (String × α)) = [] := rfl

theorem akeys_cons {α : Type} (kv : String × α) (t : List (String × α)) :
    akeys (kv :: t) = kv.1 :: akeys t := rfl

theorem alook_ains_self {α : Type} (k : String) (v : α) (d : List (String × α)) :
    alook k (ains k v d) = some v := by
  induction d with
  | nil => simp [ains, alook]
  | cons hd tl ih =>
    obtain ⟨k', v'⟩ := hd
    by_cases h : k' = k
    · subst h; simp [ains, alook]
    · simp [ains, alook, h, ih]

theorem alook_ains_ne {α : Type} {k2 k : String} (h : k2 ≠ k) (v : α)
    (d : List (String × α)) : alook k2 (ains k v d) = alook k2 d := by
  have h' : k ≠ k2 := Ne.symm h
  induction d with
  | nil => simp [ains, alook, h']
  | cons hd tl ih =>
    obtain ⟨k', v'⟩ := hd
    by_cases hk : k' = k
    · subst hk
      simp [ains, alook, h']
    · simp [ains, alook, hk, ih]

theorem ains_ains_same {α : Type} (k : String) (a b : α) (d : List (String × α)) :
    ains k b (ains k a d) = ains k b d := by
  induction d with
  | nil => simp [ains]
  | cons hd tl ih =>
    obtain ⟨k', v'⟩ := hd
    by_cases h : k' = k
    · subst h; simp [ains]
    · simp [ains, h, ih]

theorem ains_id_of_alook {α : Type} {k : String} {v : α} {d : List (String × α)}
    (h : alook k d = some v) : ains k v d = d := by
  induction d with
  | nil => simp [alook] at h
  | cons hd tl ih =>
    obtain ⟨k', v'⟩ := hd
    by_cases hk : k' = k
    · subst hk
      simp [alook] at h
      simp [ains, h]
    · simp [alook, hk] at h
      simp [ains, hk, ih h]

theorem mem_akeys_ains_self {α : Type} (k : String) (v : α) (d : List (String × α)) :
    k ∈ akeys (ains k v d) := by
  induction d with
  | nil => simp [ains, akeys_cons, akeys_nil]
  | cons hd tl ih =>
    obtain ⟨k', v'⟩ := hd
    by_cases hk : k' = k
    · subst hk
      simp [ains, akeys_cons]
    · simp only [ains, if_neg hk, akeys_cons]
      exact List.mem_cons_of_mem _ ih

theorem mem_akeys_ains_mono {α : Type} {k2 : String} (k : String) (v : α)
    {d : List (String × α)} (h : k2 ∈ akeys d) : k2 ∈ akeys (ains k v d) := by
  induction d with
  | nil => simp [akeys_nil] at h
  | cons hd tl ih =>
    obtain ⟨k', v'⟩ := hd
    rw [akeys_cons, List.mem_cons] at h
    by_cases hk : k' = k
    · subst hk
      rcases h with hc | hc
      · simp [ains, akeys_cons, hc]
      · simp only [ains, if_pos rfl, akeys_cons]
        exact List.mem_cons_of_mem _ hc
    · rcases h with hc | hc
      · simp only [ains, if_neg hk, akeys_cons]
        exact List.mem_cons.mpr (Or.inl hc)
      · simp only [ains, if_neg hk, akeys_cons]
        exact List.mem_cons_of_mem _ (ih hc)

/-- In-place updates at distinct keys commute as long as at least one of the
keys is already bound (a fresh-fresh pair would be appended in either order,
so the membership hypothesis is essential). -/
theorem ains_comm_mem {α : Type} {k k' : String} (h : k ≠ k') (a b : α)
    {d : List (String × α)} (hmem : k ∈ akeys d ∨ k' ∈ akeys d) :
    ains k a (ains k' b d) = ains k' b (ains k a d) := by
  have h' : k' ≠ k := Ne.symm h
  induction d with
  | nil =>
    rcases hmem with hc | hc <;> simp [akeys_nil] at hc
  | cons hd tl ih =>
    obtain ⟨k0, v0⟩ := hd
    by_cases h1 : k0 = k'
    · subst h1
      simp [ains, h, h']
    · by_cases h2 : k0 = k
      · subst h2
        simp [ains, h1, h']
      · have hmem' : k ∈ akeys tl ∨ k' ∈ akeys tl := by
          rcases hmem with hc | hc
          · rw [akeys_cons, List.mem_cons] at hc
            rcases hc with hc2 | hc2
            · exact absurd hc2.symm h2
            · exact Or.inl hc2
          · rw [akeys_cons, List.mem_cons] at hc
            rcases hc with hc2 | hc2
            · exact absurd hc2.symm h1
            · exact Or.inr hc2
        simp [ains, h1, h2, ih hmem']

theorem alook_ainsAll_notin {α : Type} {k : String} {l : List (String × α)}
    (h : k ∉ akeys l) (cur : List (String × α)) :
    alook k (ainsAll cur l) = alook k cur := by
  induction l generalizing cur with
  | nil => rfl
  | cons kv t ih =>
    have hne : k ≠ kv.1 := fun contra =>
      h (by rw [akeys_cons]; exact List.mem_cons.mpr (Or.inl contra))
    have hnt : k ∉ akeys t := fun contra =>
      h (by rw [akeys_cons]; exact List.mem_cons.mpr (Or.inr contra))
    show alook k (ainsAll (ains kv.1 kv.2 cur) t) = alook k cur
    rw [ih hnt, alook_ains_ne hne]

theorem ainsAll_idem {α : Type} {l : List (String × α)} (h : (akeys l).Nodup)
    (cur : List (String × α)) : ainsAll (ainsAll cur l) l = ainsAll cur l := by
  induction l generalizing cur with
  | nil => rfl
  | cons kv t ih =>
    rw [akeys_cons, List.nodup_cons] at h
    show ainsAll (ains kv.1 kv.2 (ainsAll (ains kv.1 kv.2 cur) t)) t
      = ainsAll (ains kv.1 kv.2 cur) t
    have hlook : alook kv.1 (ainsAll (ains kv.1 kv.2 cur) t) = some kv.2 := by
      rw [alook_ainsAll_notin h.1, alook_ains_self]
    rw [ains_id_of_alook hlook]
    exact ih h.2 (ains kv.1 kv.2 cur)

/-! ### Merge lemmas -/

theorem alook_merge1_ne {k : String} {kv : String × Value} (h : k ≠ kv.1) (st : Dict) :
    alook k (merge1 st kv) = alook k st := by
  by_cases hg : kv.1 = "gsv"
  · rw [merge1, if_pos hg, alook_ains_ne (hg ▸ h)]
  · rw [merge1, if_neg hg, alook_ains_ne h]

theorem alook_mergeCore_notin {k : String} {u : Dict} (h : k ∉ akeys u) (s : Dict) :
    alook k (mergeCore s u) = alook k s := by
  induction u generalizing s with
  | nil => rfl
  | cons kv t ih =>
    have hne : k ≠ kv.1 := fun contra =>
      h (by rw [akeys_cons]; exact List.mem_cons.mpr (Or.inl contra))
    have hnt : k ∉ akeys t := fun contra =>
      h (by rw [akeys_cons]; exact List.mem_cons.mpr (Or.inr contra))
    show alook k (mergeCore (merge1 s kv) t) = alook k s
    rw [ih hnt, alook_merge1_ne hne]

theorem mem_akeys_merge1_self (kv : String × Value) (st : Dict) :
    kv.1 ∈ akeys (merge1 st kv) := by
  by_cases hg : kv.1 = "gsv"
  · rw [merge1, if_pos hg, hg]
    exact mem_akeys_ains_self _ _ _
  · rw [merge1, if_neg hg]
    exact mem_akeys_ains_self _ _ _

theorem mem_akeys_merge1_mono {k2 : String} (kv : String × Value) {st : Dict}
    (h : k2 ∈ akeys st) : k2 ∈ akeys (merge1 st kv) := by
  by_cases hg : kv.1 = "gsv"
  · rw [merge1, if_pos hg]
    exact mem_akeys_ains_mono _ _ h
  · rw [merge1, if_neg hg]
    exact mem_akeys_ains_mono _ _ h

theorem mem_akeys_mergeCore_mono {k2 : String} (u : Dict) {s : Dict}
    (h : k2 ∈ akeys s) : k2 ∈ akeys (mergeCore s u) := by
  induction u generalizing s with
  | nil => exact h
  | cons kv t ih => exact ih (mem_akeys_merge1_mono kv h)

theorem mem_akeys_mergeCore {kv : String × Value} {u : Dict} (h : kv ∈ u) (s : Dict) :
    kv.1 ∈ akeys (mergeCore s u) := by
  induction u generalizing s with
  | nil => simp at h
  | cons kv' t ih =>
    rcases List.mem_cons.mp h with hc | hc
    · subst hc
      exact mem_akeys_mergeCore_mono t (mem_akeys_merge1_self kv s)
    · exact ih hc (merge1 s kv')

/-- The `'last_update'` write commutes past a merge pass whose keys are all
already bound (as they are after a first pass with the same update). -/
theorem merge1_ains_lu_comm {kv : String × Value} (h : kv.1 ≠ "last_update")
    {st : Dict} (hmem : kv.1 ∈ akeys st) (v : Value) :
    merge1 (ains "last_update" v st) kv = ains "last_update" v (merge1 st kv) := by
  by_cases hg : kv.1 = "gsv"
  · have hgl : ("gsv" : String) ≠ "last_update" := by decide
    rw [merge1, if_pos hg, merge1, if_pos hg]
    have hst : stGsv (ains "last_update" v st) = stGsv st := by
      rw [stGsv, alook_ains_ne hgl, stGsv]
    rw [hst, ains_comm_mem (hg ▸ h) _ _ (Or.inl (hg ▸ hmem))]
  · rw [merge1, if_neg hg, merge1, if_neg hg, ains_comm_mem h _ _ (Or.inl hmem)]

theorem mergeCore_ains_lu_comm {u s : Dict} (h : "last_update" ∉ akeys u)
    (hmem : ∀ kv ∈ u, kv.1 ∈ akeys s) (v : Value) :
    mergeCore (ains "last_update" v s) u = ains "last_update" v (mergeCore s u) := by
  induction u generalizing s with
  | nil => rfl
  | cons kv t ih =>
    have hne : kv.1 ≠ "last_update" := fun contra =>
      h (by rw [akeys_cons, contra]; exact List.mem_cons.mpr (Or.inl rfl))
    have hnt : "last_update" ∉ akeys t := fun contra =>
      h (by rw [akeys_cons]; exact List.mem_cons.mpr (Or.inr contra))
    have hmemt : ∀ kv' ∈ t, kv'.1 ∈ akeys (merge1 s kv) :=
      fun kv' hm => mem_akeys_merge1_mono kv (hmem kv' (List.mem_cons.mpr (Or.inr hm)))
    show mergeCore (merge1 (ains "last_update" v s) kv) t
      = ains "last_update" v (mergeCore (merge1 s kv) t)
    rw [merge1_ains_lu_comm hne (hmem kv (List.mem_cons.mpr (Or.inl rfl))) v, ih hnt hmemt]

theorem mergeCore_idem {u : Dict} (hnd : (akeys u).Nodup)
    (hgsv : ∀ kv ∈ u, (akeys (gsvOf kv.2)).Nodup) (s : Dict) :
    mergeCore (mergeCore s u) u = mergeCore s u := by
  induction u generalizing s with
  | nil => rfl
  | cons kv t ih =>
    rw [akeys_cons, List.nodup_cons] at hnd
    have hmem : kv.1 ∉ akeys t := hnd.1
    have hndt : (akeys t).Nodup := hnd.2
    have hgt : ∀ kv' ∈ t, (akeys (gsvOf kv'.2)).Nodup := fun kv' hm =>
      hgsv kv' (List.mem_cons.mpr (Or.inr hm))
    have hfix : merge1 (mergeCore (merge1 s kv) t) kv = mergeCore (merge1 s kv) t := by
      by_cases hg : kv.1 = "gsv"
      · have hlook : alook "gsv" (mergeCore (merge1 s kv) t)
            = some (.gsv (ainsAll (stGsv s) (gsvOf kv.2))) := by
          rw [alook_mergeCore_notin (hg ▸ hmem), merge1, if_pos hg]
          exact alook_ains_self _ _ _
        have hstg : stGsv (mergeCore (merge1 s kv) t) = ainsAll (stGsv s) (gsvOf kv.2) := by
          rw [stGsv, hlook]
          rfl
        rw [merge1, if_pos hg, hstg,
          ainsAll_idem (hgsv kv (List.mem_cons.mpr (Or.inl rfl))) (stGsv s)]
        exact ains_id_of_alook hlook
      · have hlook : alook kv.1 (mergeCore (merge1 s kv) t) = some kv.2 := by
          rw [alook_mergeCore_notin hmem, merge1, if_neg hg]
          exact alook_ains_self _ _ _
        rw [merge1, if_neg hg]
        exact ains_id_of_alook hlook
    show mergeCore (mergeCore (merge1 s kv) t) (kv :: t) = mergeCore (merge1 s kv) t
    show mergeCore (merge1 (mergeCore (merge1 s kv) t) kv) t = mergeCore (merge1 s kv) t
    rw [hfix]
    exact ih hndt hgt (merge1 s kv)

/-- The decoder never stores Python `None` under the guarded keys `utc_time`,
`lat`, `lon` and `speed_mps`: those are inserted only when a value is known. -/
theorem parse_no_null (ts : String) (fs : List String) (now : DT) (u : Dict)
    (hp : parse_sentence ts fs now = .ok u) :
    alook "utc_time" u ≠ some Value.none ∧ alook "lat" u ≠ some Value.none ∧
      alook "lon" u ≠ some Value.none ∧ alook "speed_mps" u ≠ some Value.none := by
  simp only [parse_sentence] at hp
  by_cases h1 : last3 ts = "RMC"
  · rw [if_pos h1] at hp
    by_cases hl : 11 ≤ fs.length
    · rw [if_pos hl] at hp
      cases hptd : parse_time_date (fs.getD 0 "") (fs.getD 8 "") now with
      | error e => rw [hptd] at hp; simp [Except.map] at hp
      | ok topt =>
        rw [hptd] at hp
        simp only [Except.map, Except.ok.injEq] at hp
        subst hp
        rcases topt with _ | tv <;>
          rcases hA : dm_to_deg (fs.getD 2 "") (fs.getD 3 "") with _ | la <;>
          rcases hB : dm_to_deg (fs.getD 4 "") (fs.getD 5 "") with _ | lo <;>
          rcases hC : (if fs.getD 6 "" ≠ "" then knots_to_mps (fs.getD 6 "")
            else Option.none) with _ | sp <;>
          by_cases hD : 12 ≤ fs.length ∧ fs.getD 11 "" ≠ "" <;>
          simp [hA, hB, hC, hD, ains, alook] <;>
          (try (split <;> simp [alook]))
    · rw [if_neg hl] at hp
      simp only [Except.ok.injEq] at hp
      subst hp
      simp [alook]
  · rw [if_neg h1] at hp
    by_cases h2 : last3 ts = "GGA"
    · rw [if_pos h2] at hp
      by_cases hl : 12 ≤ fs.length
      · rw [if_pos hl] at hp
        cases hptd : parse_time_date (fs.getD 0 "") "" now with
        | error e => rw [hptd] at hp; simp [Except.map] at hp
        | ok topt =>
          rw [hptd] at hp
          simp only [Except.map, Except.ok.injEq] at hp
          subst hp
          rcases topt with _ | tv <;>
            rcases hA : dm_to_deg (fs.getD 1 "") (fs.getD 2 "") with _ | la <;>
            rcases hB : dm_to_deg (fs.getD 3 "") (fs.getD 4 "") with _ | lo <;>
            simp [hA, hB, ains, alook]
      · rw [if_neg hl] at hp
        simp only [Except.ok.injEq] at hp
        subst hp
        simp [alook]
    · rw [if_neg h2] at hp
      by_cases h3 : last3 ts = "GNS"
      · rw [if_pos h3] at hp
        by_cases hl : 9 ≤ fs.length
        · rw [if_pos hl] at hp
          cases hptd : parse_time_date (fs.getD 0 "") "" now with
          | error e => rw [hptd] at hp; simp [Except.map] at hp
          | ok topt =>
            rw [hptd] at hp
            simp only [Except.map, Except.ok.injEq] at hp
            subst hp
            rcases topt with _ | tv <;>
              rcases hA : dm_to_deg (fs.getD 1 "") (fs.getD 2 "") with _ | la <;>
              rcases hB : dm_to_deg (fs.getD 3 "") (fs.getD 4 "") with _ | lo <;>
              by_cases hD : 9 < fs.length <;>
              simp [hA, hB, hD, ains, alook]
        · rw [if_neg hl] at hp
          simp only [Except.ok.injEq] at hp
          subst hp
          simp [alook]
      · rw [if_neg h3] at hp
        by_cases h4 : last3 ts = "GSA"
        · rw [if_pos h4] at hp
          simp only [Except.ok.injEq] at hp
          subst hp
          by_cases hl : 17 ≤ fs.length <;> simp [hl, ains, alook]
        · rw [if_neg h4] at hp
          by_cases h5 : last3 ts = "GSV"
          · rw [if_pos h5] at hp
            simp only [Except.ok.injEq] at hp
            subst hp
            by_cases hl : 3 ≤ fs.length ∧ pyIsdigit (fs.getD 2 "") = true <;>
              simp [hl, ains, alook] <;> (try (split <;> simp [alook]))
          · rw [if_neg h5] at hp
            by_cases h6 : last3 ts = "VTG"
            · rw [if_pos h6] at hp
              simp only [Except.ok.injEq] at hp
              subst hp
              by_cases hl : 7 ≤ fs.length
              · rw [if_pos hl]
                repeat' split
                all_goals simp [ains, alook]
              · rw [if_neg hl]
                simp [alook]
            · rw [if_neg h6] at hp
              by_cases h7 : last3 ts = "GST"
              · rw [if_pos h7] at hp
                by_cases hl : 5 ≤ fs.length
                · rw [if_pos hl] at hp
                  cases hptd : (if fs.getD 0 "" ≠ "" then parse_time_date (fs.getD 0 "") "" now
                    else .ok Option.none) with
                  | error e => rw [hptd] at hp; simp [Except.map] at hp
                  | ok topt =>
                    rw [hptd] at hp
                    simp only [Except.map, Except.ok.injEq] at hp
                    subst hp
                    rcases topt with _ | tv <;> simp [ains, alook]
                · rw [if_neg hl] at hp
                  simp only [Except.ok.injEq] at hp
                  subst hp
                  simp [alook]
              · rw [if_neg h7] at hp
                simp only [Except.ok.injEq] at hp
                subst hp
                simp [alook]

/-! ### Claim theorems -/

/-- Claim C6: empty or unparseable degrees-minutes input yields "unknown"
(absent), not zero and not an exception; otherwise the result is
`floor(value/100) + (value - 100*floor(value/100))/60`, negated for `S`/`W`;
`4807.038,N` gives `48.1173` and `01131.000,E` gives `11.51666...` = 691/60. -/
theorem C6_theorem :
    (∀ dm hemi, pyFloat? dm = Option.none → dm_to_deg dm hemi = Option.none) ∧
    (∀ dm hemi v, pyFloat? dm = some v →
      dm_to_deg dm hemi =
        some (if hemi = "S" ∨ hemi = "W"
          then -((⌊v / 100⌋ : ℚ) + (v - (⌊v / 100⌋ : ℚ) * 100) / 60)
          else (⌊v / 100⌋ : ℚ) + (v - (⌊v / 100⌋ : ℚ) * 100) / 60)) ∧
    dm_to_deg "4807.038" "N" = some (mkRat 481173 10000) ∧
    dm_to_deg "01131.000" "E" = some (mkRat 691 60) ∧
    dm_to_deg "4807.038" "S" = some (-(mkRat 481173 10000)) ∧
    dm_to_deg "" "N" = Option.none := by
  refine ⟨?_, ?_, by decide, by decide, by decide, by decide⟩
  · intro dm hemi h
    by_cases hd : dm = ""
    · simp [dm_to_deg, hd]
    · simp [dm_to_deg, hd, h]
  · intro dm hemi v h
    have hd : dm ≠ "" := by
      intro c
      subst c
      rw [show pyFloat? "" = Option.none from by decide] at h
      exact Option.noConfusion h
    simp [dm_to_deg, hd, h, qadd_eq, qsub_eq, qmul_eq, qdiv_eq]

/-- Witness for C6: both universally quantified parts applied at concrete
inputs. -/
theorem C6_witness :
    dm_to_deg "abc" "W" = Option.none ∧
    dm_to_deg "4807.038" "W" =
      some (if ("W" : String) = "S" ∨ ("W" : String) = "W"
        then -((⌊mkRat 48070380 10000 / 100⌋ : ℚ) +
          (mkRat 48070380 10000 - (⌊mkRat 48070380 10000 / 100⌋ : ℚ) * 100) / 60)
        else (⌊mkRat 48070380 10000 / 100⌋ : ℚ) +
          (mkRat 48070380 10000 - (⌊mkRat 48070380 10000 / 100⌋ : ℚ) * 100) / 60) :=
  ⟨C6_theorem.1 "abc" "W" (by decide),
    C6_theorem.2.1 "4807.038" "W" (mkRat 48070380 10000) (by decide)⟩

/-- Claim C4 (general part plus the concrete chain): merging a GSV-derived
update replaces only the named constellation's entry and leaves the others
unchanged; from empty, `GP:7` then `GL:5` gives both, and a later `GP:9`
replaces only `GP`. -/
theorem C4_theorem :
    (∀ (st : Dict) (c : String) (n : ℕ) (t : ℚ),
      alook c (stGsv (merge_updates st [("gsv", Value.gsv [(c, n)])] t)) = some n ∧
      ∀ c', c' ≠ c →
        alook c' (stGsv (merge_updates st [("gsv", Value.gsv [(c, n)])] t))
          = alook c' (stGsv st)) ∧
    parse_sentence "GPGSV" ["3", "1", "07"] now0 = .ok [("gsv", Value.gsv [("GP", 7)])] ∧
    stGsv (merge_updates (merge_updates [] [("gsv", Value.gsv [("GP", 7)])] 1)
        [("gsv", Value.gsv [("GL", 5)])] 2) = [("GP", 7), ("GL", 5)] ∧
    stGsv (merge_updates (merge_updates (merge_updates [] [("gsv", Value.gsv [("GP", 7)])] 1)
        [("gsv", Value.gsv [("GL", 5)])] 2) [("gsv", Value.gsv [("GP", 9)])] 3)
      = [("GP", 9), ("GL", 5)] := by
  refine ⟨?_, by decide, by decide, by decide⟩
  intro st c n t
  have hgl : ("gsv" : String) ≠ "last_update" := by decide
  have hstg : stGsv (merge_updates st [("gsv", Value.gsv [(c, n)])] t)
      = ains c n (stGsv st) := by
    show stGsv (ains "last_update" (.num t)
      (ains "gsv" (.gsv (ains c n (stGsv st))) st)) = ains c n (stGsv st)
    rw [stGsv, alook_ains_ne hgl, alook_ains_self]
    rfl
  rw [hstg]
  exact ⟨alook_ains_self _ _ _, fun c' hc => alook_ains_ne hc _ _⟩

/-- Witness for C4: the general part applied at a concrete state, update and
distinct constellation. -/
theorem C4_witness :
    alook "GP" (stGsv (merge_updates [("gsv", Value.gsv [("GP", 3), ("GL", 4)])]
      [("gsv", Value.gsv [("GP", 7)])] 1)) = some 7 ∧
    alook "GL" (stGsv (merge_updates [("gsv", Value.gsv [("GP", 3), ("GL", 4)])]
      [("gsv", Value.gsv [("GP", 7)])] 1))
      = alook "GL" (stGsv [("gsv", Value.gsv [("GP", 3), ("GL", 4)])]) :=
  ⟨(C4_theorem.1 [("gsv", Value.gsv [("GP", 3), ("GL", 4)])] "GP" 7 1).1,
    (C4_theorem.1 [("gsv", Value.gsv [("GP", 3), ("GL", 4)])] "GP" 7 1).2 "GL" (by decide)⟩

/-- Claim C8: the state merger is idempotent on decoded updates — applying the
same update twice (with the same clock sample) yields the same state as
applying it once; the merger is a pure function of `(state, update, now)`,
with no memory beyond the state object.  `GoodUpdate` holds of every dict the
decoder can produce (distinct keys, no `'last_update'`, well-formed nested
`'gsv'` mapping). -/
theorem C8_theorem (s u : Dict) (t : ℚ) (h : GoodUpdate u) :
    merge_updates (merge_updates s u t) u t = merge_updates s u t := by
  obtain ⟨hnd, hlu, hgsv⟩ := h
  rw [merge_updates_eq, merge_updates_eq]
  have hmem : ∀ kv ∈ u, kv.1 ∈ akeys (mergeCore s u) :=
    fun kv hm => mem_akeys_mergeCore hm s
  rw [mergeCore_ains_lu_comm hlu hmem, mergeCore_idem hnd hgsv, ains_ains_same]

/-- Witness for C8: idempotence at a concrete RMC-like update. -/
theorem C8_witness :
    GoodUpdate [("fix_ok", Value.bool true), ("lat", Value.num (mkRat 481173 10000)),
      ("course_deg", Value.none), ("gsv", Value.gsv [("GP", 7)])] ∧
    merge_updates (merge_updates [("alt_m", Value.num 10)]
        [("fix_ok", Value.bool true), ("lat", Value.num (mkRat 481173 10000)),
          ("course_deg", Value.none), ("gsv", Value.gsv [("GP", 7)])] 2)
      [("fix_ok", Value.bool true), ("lat", Value.num (mkRat 481173 10000)),
        ("course_deg", Value.none), ("gsv", Value.gsv [("GP", 7)])] 2
    = merge_updates [("alt_m", Value.num 10)]
        [("fix_ok", Value.bool true), ("lat", Value.num (mkRat 481173 10000)),
          ("course_deg", Value.none), ("gsv", Value.gsv [("GP", 7)])] 2 :=
  ⟨by decide, C8_theorem _ _ _ (by decide)⟩

/-- Claim C2 (amended): merging never touches a key absent from the update
(apart from `'last_update'`), and the decoder inserts `utc_time`, `lat`,
`lon` and `speed_mps` only when a value is known (never as Python `None`);
however the keys a sentence type writes unconditionally (such as
`course_deg`, `hdop`, `fix_quality`) may carry `None` when the field is
unparseable or empty, and merging such an update does reset a previously
known value to null — see `C2_counterexample`. -/
theorem C2_theorem :
    (∀ (s u : Dict) (t : ℚ) (k : String), k ∉ akeys u → k ≠ "last_update" →
      alook k (merge_updates s u t) = alook k s) ∧
    (∀ (ts : String) (fs : List String) (now : DT) (u : Dict),
      parse_sentence ts fs now = .ok u →
      alook "utc_time" u ≠ some Value.none ∧ alook "lat" u ≠ some Value.none ∧
        alook "lon" u ≠ some Value.none ∧ alook "speed_mps" u ≠ some Value.none) := by
  constructor
  · intro s u t k hk hklu
    rw [merge_updates_eq, alook_ains_ne hklu, alook_mergeCore_notin hk]
  · intro ts fs now u hp
    exact parse_no_null ts fs now u hp

/-- Counterexample to claim C2 as stated: a checksum-valid RMC sentence with
an empty course field decodes to an update that carries `course_deg ↦ None`,
and merging it into a state that knew `course_deg = 54.7` resets the field
to null — a decoded update is not restricted to "only the keys the sentence
actually carries". -/
theorem C2_counterexample :
    parse_sentence "GPRMC"
        ["123519", "A", "4807.038", "N", "01131.000", "E", "0.5", "", "230394", "", ""] now0
      = .ok [("utc_time", Value.str "1994-03-23T12:35:19Z"), ("fix_ok", Value.bool true),
          ("lat", Value.num (mkRat 481173 10000)), ("lon", Value.num (mkRat 691 60)),
          ("speed_mps", Value.num (mkRat 128611 500000)),
          ("speed_kmh", Value.num (mkRat 1157499 1250000)), ("course_deg", Value.none)] ∧
    alook "course_deg" (merge_updates [("course_deg", Value.num (mkRat 547 10))]
        [("utc_time", Value.str "1994-03-23T12:35:19Z"), ("fix_ok", Value.bool true),
          ("lat", Value.num (mkRat 481173 10000)), ("lon", Value.num (mkRat 691 60)),
          ("speed_mps", Value.num (mkRat 128611 500000)),
          ("speed_kmh", Value.num (mkRat 1157499 1250000)), ("course_deg", Value.none)] 5)
      = some Value.none :=
  ⟨by decide, by decide⟩

/-- Witness for C2: both parts applied at concrete inputs. -/
theorem C2_witness :
    alook "alt_m" (merge_updates [("alt_m", Value.num 5)] [("lat", Value.num 1)] 2)
      = alook "alt_m" [("alt_m", Value.num 5)] ∧
    alook "lat" [("gsv", Value.gsv [("GP", 7)])] ≠ some Value.none :=
  ⟨C2_theorem.1 [("alt_m", Value.num 5)] [("lat", Value.num 1)] 2 "alt_m"
      (by decide) (by decide),
    (C2_theorem.2 "GPGSV" ["3", "1", "07"] now0 [("gsv", Value.gsv [("GP", 7)])]
      (by decide)).2.1⟩

/-- Claim C9: a sentence that decodes to an empty update (unrecognized type,
or a recognized type with a too-short field list) leaves FixState entirely
unchanged — the merge is skipped, so `'last_update'` is not refreshed; and
whenever a nonempty update is merged, `'last_update'` is set to the clock
sample. -/
theorem C9_theorem :
    (∀ (cfg : LoopCfg) (ls : LoopSt) (inp : Inp) (ts : String) (fs : List String),
      frameOK inp.line = some (ts, fs) → parse_sentence ts fs inp.nowDT = .ok [] →
      ∃ le e, stepLoop cfg ls inp = .ok (⟨ls.state, le⟩, e)) ∧
    (∀ (s u : Dict) (t : ℚ), u ≠ [] →
      alook "last_update" (merge_updates s u t) = some (Value.num t)) ∧
    (∀ (ts : String) (fs : List String) (now : DT),
      last3 ts ∉ (["RMC", "GGA", "GNS", "GSA", "GSV", "VTG", "GST"] : List String) →
      parse_sentence ts fs now = .ok []) ∧
    (∀ (ts : String) (fs : List String) (now : DT),
      last3 ts = "RMC" → fs.length < 11 → parse_sentence ts fs now = .ok []) := by
  refine ⟨?_, ?_, ?_, ?_⟩
  · intro cfg ls inp ts fs hf hp
    simp only [stepLoop, hf, hp]
    by_cases ht : 1 ≤ qsub inp.t ls.last_emit
    · rw [if_pos ht]
      exact ⟨inp.t, _, rfl⟩
    · rw [if_neg ht]
      exact ⟨ls.last_emit, Option.none, rfl⟩
  · intro s u t hu
    rw [merge_updates_eq, alook_ains_self]
  · intro ts fs now h
    have h1 : last3 ts ≠ "RMC" := fun c => h (by rw [c]; decide)
    have h2 : last3 ts ≠ "GGA" := fun c => h (by rw [c]; decide)
    have h3 : last3 ts ≠ "GNS" := fun c => h (by rw [c]; decide)
    have h4 : last3 ts ≠ "GSA" := fun c => h (by rw [c]; decide)
    have h5 : last3 ts ≠ "GSV" := fun c => h (by rw [c]; decide)
    have h6 : last3 ts ≠ "VTG" := fun c => h (by rw [c]; decide)
    have h7 : last3 ts ≠ "GST" := fun c => h (by rw [c]; decide)
    simp [parse_sentence, h1, h2, h3, h4, h5, h6, h7]
  · intro ts fs now hts hlen
    simp [parse_sentence, hts, Nat.not_le.mpr hlen]

/-- Witness for C9: a checksum-valid GSV line whose count field is not a
digit string decodes to the empty update and leaves the state untouched;
a nonempty update stamps `'last_update'`. -/
theorem C9_witness :
    (∃ le e, stepLoop ⟨false, false⟩ ⟨[("alt_m", Value.num 10)], 0⟩
        ⟨"$GPGSV,3,1,0A*0A", 5, now0⟩ = .ok (⟨[("alt_m", Value.num 10)], le⟩, e)) ∧
    alook "last_update" (merge_updates [] [("lat", Value.num 1)] 7) = some (Value.num 7) ∧
    parse_sentence "GPZDA" ["1", "2"] now0 = .ok [] ∧
    parse_sentence "GNRMC" ["123519"] now0 = .ok [] :=
  ⟨C9_theorem.1 ⟨false, false⟩ ⟨[("alt_m", Value.num 10)], 0⟩
      ⟨"$GPGSV,3,1,0A*0A", 5, now0⟩ "GPGSV" ["3", "1", "0A"] (by decide) (by decide),
    C9_theorem.2.1 [] [("lat", Value.num 1)] 7 (by decide),
    C9_theorem.2.2.1 "GPZDA" ["1", "2"] now0 (by decide),
    C9_theorem.2.2.2 "GNRMC" ["123519"] now0 (by decide) (by decide)⟩

theorem getD_set_ne {α : Type} (l : List α) (i j : ℕ) (h : i ≠ j) (x d : α) :
    (l.set i x).getD j d = l.getD j d := by
  induction l generalizing i j with
  | nil => rfl
  | cons a t ih =>
    cases i with
    | zero =>
      cases j with
      | zero => exact absurd rfl h
      | succ j2 => rfl
    | succ i2 =>
      cases j with
      | zero => rfl
      | succ j2 => exact ih i2 j2 (fun c => h (by rw [c]))

/-- Claim C10: in a VTG sentence with at least 7 fields, the km/h field
(field 6) is a fallback only when the knots field (field 4) is the empty
string: a non-empty but unparseable knots field yields no speed keys at all
— field 6 is not consulted (the decode result is invariant under changing
field 6) — while course (field 0) is still extracted. -/
theorem C10_theorem (ts : String) (fs : List String) (now : DT)
    (hvtg : last3 ts = "VTG") (hlen : 7 ≤ fs.length) (hne : fs.getD 4 "" ≠ "")
    (hbad : pyFloat? (fs.getD 4 "") = Option.none) :
    (∀ x, parse_sentence ts (fs.set 6 x) now = parse_sentence ts fs now) ∧
    ∃ u, parse_sentence ts fs now = .ok u ∧ alook "speed_mps" u = Option.none ∧
      alook "speed_kmh" u = Option.none ∧
      alook "course_deg" u = some (vnum (safe_float (fs.getD 0 ""))) := by
  have hR : last3 ts ≠ "RMC" := by rw [hvtg]; decide
  have hG : last3 ts ≠ "GGA" := by rw [hvtg]; decide
  have hN : last3 ts ≠ "GNS" := by rw [hvtg]; decide
  have hA : last3 ts ≠ "GSA" := by rw [hvtg]; decide
  have hV : last3 ts ≠ "GSV" := by rw [hvtg]; decide
  have hK : knots_to_mps (fs.getD 4 "") = Option.none := by
    rw [knots_to_mps, hbad]
    rfl
  constructor
  · intro x
    have h6 : ∀ i, 6 ≠ i → (fs.set 6 x).getD i "" = fs.getD i "" :=
      fun i hi => getD_set_ne fs 6 i hi x ""
    simp only [parse_sentence, List.length_set, h6 0 (by decide), h6 4 (by decide),
      h6 8 (by decide)]
    rw [if_neg hR, if_neg hR, if_neg hG, if_neg hG, if_neg hN, if_neg hN, if_neg hA,
      if_neg hA, if_neg hV, if_neg hV, if_pos hvtg, if_pos hvtg, if_pos hlen, if_pos hlen,
      if_pos hne, if_pos hne]
  · simp only [parse_sentence]
    rw [if_neg hR, if_neg hG, if_neg hN, if_neg hA, if_neg hV, if_pos hvtg, if_pos hlen,
      if_pos hne, hK]
    by_cases hm : 9 ≤ fs.length ∧ fs.getD 8 "" ≠ ""
    · rw [if_pos hm]
      exact ⟨_, rfl, by simp [ains, alook], by simp [ains, alook], by simp [ains, alook]⟩
    · rw [if_neg hm]
      exact ⟨_, rfl, by simp [ains, alook], by simp [ains, alook], by simp [ains, alook]⟩

/-- Witness for C10: a concrete VTG sentence with an unparseable knots field. -/
theorem C10_witness :
    parse_sentence "GPVTG"
        ((["54.7", "T", "", "M", "abc", "N", "100.0", "K"] : List String).set 6 "999") now0
      = parse_sentence "GPVTG" ["54.7", "T", "", "M", "abc", "N", "100.0", "K"] now0 ∧
    ∃ u, parse_sentence "GPVTG" ["54.7", "T", "", "M", "abc", "N", "100.0", "K"] now0
        = .ok u ∧
      alook "speed_mps" u = Option.none ∧ alook "speed_kmh" u = Option.none ∧
      alook "course_deg" u = some (vnum (safe_float "54.7")) :=
  ⟨( C10_theorem "GPVTG" ["54.7", "T", "", "M", "abc", "N", "100.0", "K"] now0
      (by decide) (by decide) (by decide) (by decide)).1 "999",
    ( C10_theorem "GPVTG" ["54.7", "T", "", "M", "abc", "N", "100.0", "K"] now0
      (by decide) (by decide) (by decide) (by decide)).2⟩

/-- Claim C1 (amended): for a checksum-valid recognized sentence meeting its
type's minimum length, decoding raises no exception and degrades unparseable
fields to "unknown" — EXCEPT for the fields fed to timestamp assembly: as
long as the `parse_time_date` call returns normally (`timeOK`), decoding
returns normally for every field list, with sibling fields extracted
independently (shown for RMC: `lat` is present exactly when its field
parses, and `course_deg`/`fix_ok` are extracted regardless); but a nonempty
unparseable time-of-day field, a malformed 6-character date, or
out-of-range calendar components raise an uncaught exception that aborts
the sentence — six leading time digits are NOT enough to be safe — see
`C1_counterexample`. -/
theorem C1_theorem :
    (∀ (ts : String) (fs : List String) (now : DT), timeOK ts fs now →
      ∃ u, parse_sentence ts fs now = .ok u) ∧
    (∀ (ts : String) (fs : List String) (now : DT) (t : Option DT),
      last3 ts = "RMC" → 11 ≤ fs.length →
      parse_time_date (fs.getD 0 "") (fs.getD 8 "") now = .ok t →
      ∃ u, parse_sentence ts fs now = .ok u ∧
        alook "lat" u = (dm_to_deg (fs.getD 2 "") (fs.getD 3 "")).map Value.num ∧
        alook "course_deg" u = some (vnum (safe_float (fs.getD 7 ""))) ∧
        alook "fix_ok" u = some (.bool (decide (fs.getD 1 "" = "A")))) := by
  constructor
  · intro ts fs now hok
    obtain ⟨hR, hG, hN, hT⟩ := hok
    simp only [parse_sentence]
    by_cases h1 : last3 ts = "RMC"
    · rw [if_pos h1]
      by_cases hl : 11 ≤ fs.length
      · rw [if_pos hl]
        rcases hE : parse_time_date (fs.getD 0 "") (fs.getD 8 "") now with e | topt
        · have hx := hR h1 hl
          rw [hE] at hx
          simp [exOkB] at hx
        · exact ⟨_, rfl⟩
      · rw [if_neg hl]
        exact ⟨[], rfl⟩
    · rw [if_neg h1]
      by_cases h2 : last3 ts = "GGA"
      · rw [if_pos h2]
        by_cases hl : 12 ≤ fs.length
        · rw [if_pos hl]
          rcases hE : parse_time_date (fs.getD 0 "") "" now with e | topt
          · have hx := hG h2 hl
            rw [hE] at hx
            simp [exOkB] at hx
          · exact ⟨_, rfl⟩
        · rw [if_neg hl]
          exact ⟨[], rfl⟩
      · rw [if_neg h2]
        by_cases h3 : last3 ts = "GNS"
        · rw [if_pos h3]
          by_cases hl : 9 ≤ fs.length
          · rw [if_pos hl]
            rcases hE : parse_time_date (fs.getD 0 "") "" now with e | topt
            · have hx := hN h3 hl
              rw [hE] at hx
              simp [exOkB] at hx
            · exact ⟨_, rfl⟩
          · rw [if_neg hl]
            exact ⟨[], rfl⟩
        · rw [if_neg h3]
          by_cases h4 : last3 ts = "GSA"
          · rw [if_pos h4]
            exact ⟨_, rfl⟩
          · rw [if_neg h4]
            by_cases h5 : last3 ts = "GSV"
            · rw [if_pos h5]
              exact ⟨_, rfl⟩
            · rw [if_neg h5]
              by_cases h6 : last3 ts = "VTG"
              · rw [if_pos h6]
                exact ⟨_, rfl⟩
              · rw [if_neg h6]
                by_cases h7 : last3 ts = "GST"
                · rw [if_pos h7]
                  by_cases hl : 5 ≤ fs.length
                  · rw [if_pos hl]
                    by_cases h0 : fs.getD 0 "" ≠ ""
                    · rw [if_pos h0]
                      rcases hE : parse_time_date (fs.getD 0 "") "" now with e | topt
                      · have hx := hT h7 hl h0
                        rw [hE] at hx
                        simp [exOkB] at hx
                      · exact ⟨_, rfl⟩
                    · rw [if_neg h0]
                      exact ⟨_, rfl⟩
                  · rw [if_neg hl]
                    exact ⟨[], rfl⟩
                · rw [if_neg h7]
                  exact ⟨[], rfl⟩
  · intro ts fs now t hts hlen hptd
    simp only [parse_sentence]
    rw [if_pos hts, if_pos hlen, hptd]
    refine ⟨_, rfl, ?_⟩
    rcases t with _ | tv <;>
      rcases hA : dm_to_deg (fs.getD 2 "") (fs.getD 3 "") with _ | la <;>
      rcases hB : dm_to_deg (fs.getD 4 "") (fs.getD 5 "") with _ | lo <;>
      rcases hC : (if fs.getD 6 "" ≠ "" then knots_to_mps (fs.getD 6 "")
        else Option.none) with _ | sp <;>
      simp [hA, hB, hC, ains, alook] <;>
      (try (split <;> simp [ains, alook]))

/-- Counterexample to claim C1 as stated: a checksum-valid RMC frame of
full length whose time-of-day field is non-empty but unparseable makes the
decoder raise (`int('X2')` raises `ValueError`, uncaught in `main`'s loop),
instead of degrading that field to "unknown".  The abort is not limited to
non-digit prefixes: a time with six leading digits still raises when its
components are out of range (`999999`, rejected by the `datetime`
constructor) or when its tail past index 4 is not a float (`123519abc`,
`float('19abc')` raises), and a malformed six-character date aborts too
(`23039x`, `int('9x')` raises).  So the exact safe proviso is "the
`parse_time_date` call returns normally" (`timeOK`), nothing weaker. -/
theorem C1_counterexample :
    frameOK "$GPRMC,X23519,A,4807.038,N,01131.000,E,0.5,54.7,230394,,*47"
      = some ("GPRMC",
          ["X23519", "A", "4807.038", "N", "01131.000", "E", "0.5", "54.7", "230394", "", ""]) ∧
    parse_sentence "GPRMC"
      ["X23519", "A", "4807.038", "N", "01131.000", "E", "0.5", "54.7", "230394", "", ""] now0
      = .error () ∧
    parse_sentence "GPRMC"
      ["999999", "A", "4807.038", "N", "01131.000", "E", "0.5", "54.7", "230394", "", ""] now0
      = .error () ∧
    parse_sentence "GPRMC"
      ["123519abc", "A", "4807.038", "N", "01131.000", "E", "0.5", "54.7", "230394", "", ""] now0
      = .error () ∧
    parse_sentence "GPRMC"
      ["123519", "A", "4807.038", "N", "01131.000", "E", "0.5", "54.7", "23039x", "", ""] now0
      = .error () :=
  ⟨by decide, by decide, by decide, by decide, by decide⟩

/-- Witness for C1: both parts applied at concrete inputs (an RMC sentence
with a parseable position but an unparseable course field). -/
theorem C1_witness :
    (∃ u, parse_sentence "GPRMC"
      ["123519", "A", "4807.038", "N", "01131.000", "E", "", "xx", "230394", "", ""] now0
      = .ok u) ∧
    ∃ u, parse_sentence "GPRMC"
        ["123519", "A", "4807.038", "N", "01131.000", "E", "", "xx", "230394", "", ""] now0
        = .ok u ∧
      alook "lat" u = (dm_to_deg "4807.038" "N").map Value.num ∧
      alook "course_deg" u = some (vnum (safe_float "xx")) ∧
      alook "fix_ok" u = some (.bool (decide (("A" : String) = "A"))) :=
  ⟨C1_theorem.1 "GPRMC"
      ["123519", "A", "4807.038", "N", "01131.000", "E", "", "xx", "230394", "", ""] now0
      (by decide),
    C1_theorem.2 "GPRMC"
      ["123519", "A", "4807.038", "N", "01131.000", "E", "", "xx", "230394", "", ""] now0
      (some ⟨1994, 3, 23, 12, 35, 19⟩) (by decide) (by decide) (by decide)⟩

theorem mkDatetime_year {y mo d h mi s : ℤ} {dt : DT}
    (h2 : mkDatetime y mo d h mi s = .ok dt) : dt.year = y := by
  rw [mkDatetime] at h2
  split at h2
  · obtain rfl := Except.ok.inj h2
    rfl
  · exact Except.noConfusion h2

/-- Claim C5: the timestamp assembler turns time `123519` and date `230394`
into the instant rendered as `1994-03-23T12:35:19Z`; for every 6-digit date
the 2-digit year is expanded as `2000+yy` when `yy < 80` and `1900+yy`
otherwise (so 94 becomes 1994 and 05 becomes 2005), and the ISO-8601
rendering with the literal `Z` marker is what an RMC decode stores under
`utc_time`. -/
theorem C5_theorem :
    (∃ dt, parse_time_date "123519" "230394" now0 = .ok (some dt) ∧
      isoZ dt = "1994-03-23T12:35:19Z" ∧ dt = ⟨1994, 3, 23, 12, 35, 19⟩) ∧
    (∀ (t d : String) (now : DT) (dt : DT), d.toList.length = 6 →
      parse_time_date t d now = .ok (some dt) →
      ∃ yy, pyInt? (pySlice d 4 6) = some yy ∧
        dt.year = if yy < 80 then 2000 + yy else 1900 + yy) ∧
    (∃ dt, parse_time_date "123519" "230305" now0 = .ok (some dt) ∧ dt.year = 2005) ∧
    (∃ u, parse_sentence "GPRMC"
        ["123519", "A", "4807.038", "N", "01131.000", "E", "0.5", "54.7", "230394", "", ""] now0
        = .ok u ∧ alook "utc_time" u = some (.str "1994-03-23T12:35:19Z")) := by
  refine ⟨⟨⟨1994, 3, 23, 12, 35, 19⟩, by decide, by decide, rfl⟩, ?_,
    ⟨⟨2005, 3, 23, 12, 35, 19⟩, by decide, rfl⟩, ?_⟩
  · intro t d now dt hlen hp
    rw [parse_time_date] at hp
    by_cases ht : t = ""
    · rw [if_pos ht] at hp
      exact Option.noConfusion (Except.ok.inj hp)
    · rw [if_neg ht] at hp
      rcases hA : pyInt? (pySlice t 0 2) with _ | hh
      · rw [hA] at hp
        simp at hp
      · rcases hB : pyInt? (pySlice t 2 4) with _ | mm
        · rw [hA, hB] at hp
          simp at hp
        · rcases hC : pyFloat? (pyDropStr t 4) with _ | sf
          · rw [hA, hB, hC] at hp
            simp at hp
          · rw [hA, hB, hC] at hp
            simp only [if_pos hlen] at hp
            rcases hD : pyInt? (pySlice d 0 2) with _ | dd
            · rw [hD] at hp
              simp at hp
            · rcases hE : pyInt? (pySlice d 2 4) with _ | mo
              · rw [hD, hE] at hp
                simp at hp
              · rcases hF : pyInt? (pySlice d 4 6) with _ | yy
                · rw [hD, hE, hF] at hp
                  simp at hp
                · rw [hD, hE, hF] at hp
                  refine ⟨yy, rfl, ?_⟩
                  replace hp : Except.map some (mkDatetime
                      (if yy < 80 then 2000 + yy else 1900 + yy) mo dd hh mm (pyTrunc sf))
                      = Except.ok (some dt) := hp
                  rcases hM : mkDatetime (if yy < 80 then 2000 + yy else 1900 + yy)
                      mo dd hh mm (pyTrunc sf) with e | dtv
                  · rw [hM] at hp
                    simp [Except.map] at hp
                  · rw [hM] at hp
                    simp only [Except.map, Except.ok.injEq, Option.some.injEq] at hp
                    subst hp
                    exact mkDatetime_year hM
  · refine ⟨_, rfl, ?_⟩
    decide

/-- Witness for C5: the general year rule applied at the concrete date
`230394`. -/
theorem C5_witness :
    ∃ yy, pyInt? (pySlice "230394" 4 6) = some yy ∧
      (⟨1994, 3, 23, 12, 35, 19⟩ : DT).year
        = if yy < 80 then 2000 + yy else 1900 + yy :=
  C5_theorem.2.1 "123519" "230394" now0 ⟨1994, 3, 23, 12, 35, 19⟩ (by decide) (by decide)

theorem stepLoop_eq (cfg : LoopCfg) (ls : LoopSt) (inp : Inp) :
    stepLoop cfg ls inp =
      match frameOK inp.line with
      | Option.none => .ok (ls, Option.none)
      | some (ts, fs) =>
        match parse_sentence ts fs inp.nowDT with
        | .error e => .error e
        | .ok u =>
          if 1 ≤ qsub inp.t ls.last_emit then
            .ok (⟨stAfter ls u inp.t, inp.t⟩,
                 if gateB cfg (stAfter ls u inp.t) then some ⟨inp.t, stAfter ls u inp.t⟩
                 else Option.none)
          else .ok (⟨stAfter ls u inp.t, ls.last_emit⟩, Option.none) := rfl

theorem stepLoop_emit {cfg : LoopCfg} {ls : LoopSt} {inp : Inp} {ls' : LoopSt}
    {em : Emission} (h : stepLoop cfg ls inp = .ok (ls', some em)) :
    em.t = inp.t ∧ ls'.last_emit = inp.t ∧ 1 ≤ qsub inp.t ls.last_emit ∧
    em.snapshot = ls'.state ∧ gateB cfg em.snapshot = true := by
  rw [stepLoop_eq] at h
  rcases hf : frameOK inp.line with _ | ⟨ts, fs⟩
  · simp [hf] at h
  · rcases hp : parse_sentence ts fs inp.nowDT with e | u
    · simp [hf, hp] at h
    · simp only [hf, hp] at h
      split at h
      · rename_i htick
        split at h
        · rename_i hgate
          simp only [Except.ok.injEq, Prod.mk.injEq, Option.some.injEq] at h
          obtain ⟨hls, hem⟩ := h
          subst hls
          subst hem
          exact ⟨rfl, rfl, htick, rfl, hgate⟩
        · simp at h
      · simp at h

theorem stepLoop_last_emit_le {cfg : LoopCfg} {ls : LoopSt} {inp : Inp}
    {ls' : LoopSt} {o : Option Emission}
    (h : stepLoop cfg ls inp = .ok (ls', o)) : ls.last_emit ≤ ls'.last_emit := by
  rw [stepLoop_eq] at h
  rcases hf : frameOK inp.line with _ | ⟨ts, fs⟩
  · simp only [hf, Except.ok.injEq, Prod.mk.injEq] at h
    obtain ⟨rfl, -⟩ := h
    exact le_refl _
  · rcases hp : parse_sentence ts fs inp.nowDT with e | u
    · simp [hf, hp] at h
    · simp only [hf, hp] at h
      split at h
      · rename_i htick
        simp only [Except.ok.injEq, Prod.mk.injEq] at h
        obtain ⟨hls, -⟩ := h
        rw [← hls]
        show ls.last_emit ≤ inp.t
        rw [qsub_eq] at htick
        linarith
      · simp only [Except.ok.injEq, Prod.mk.injEq] at h
        obtain ⟨hls, -⟩ := h
        rw [← hls]

theorem gapOK_mono {x y : ℚ} (h : x ≤ y) (es : List Emission) (hg : gapOK y es) :
    gapOK x es := by
  cases es with
  | nil => trivial
  | cons e r =>
    obtain ⟨h1, h2⟩ := hg
    refine ⟨?_, h2⟩
    rw [qadd_eq] at h1 ⊢
    linarith

theorem runLoop_complete (cfg : LoopCfg) (hmode : cfg.pmode = false ∨ cfg.once = true)
    (inps : List Inp) : ∀ (n : ℕ) (ls lsf : LoopSt) (es : List Emission),
    runLoop cfg n ls inps = .ok (lsf, es) → ∀ e ∈ es, completeB e.snapshot = true := by
  induction inps with
  | nil =>
    intro n ls lsf es h e he
    simp only [runLoop, Except.ok.injEq, Prod.mk.injEq] at h
    obtain ⟨-, rfl⟩ := h
    exact absurd he (List.not_mem_nil e)
  | cons inp rest ih =>
    intro n ls lsf es h e he
    simp only [runLoop] at h
    rcases hs : stepLoop cfg ls inp with e' | ⟨ls', o⟩
    · simp [hs] at h
    · rcases o with _ | em
      · simp only [hs] at h
        exact ih n ls' lsf es h e he
      · have hgate : gateB cfg em.snapshot = true := (stepLoop_emit hs).2.2.2.2
        have hcomp : completeB em.snapshot = true := by
          cases hc : cfg.once
          · rcases hmode with hpm | ho
            · rw [gateB, hc, hpm] at hgate
              simpa using hgate
            · rw [ho] at hc
              exact Bool.noConfusion hc
          · rw [gateB, hc] at hgate
            simpa using hgate
        simp only [hs] at h
        split at h
        · simp only [Except.ok.injEq, Prod.mk.injEq] at h
          obtain ⟨-, rfl⟩ := h
          rw [List.mem_singleton] at he
          subst he
          exact hcomp
        · rcases hr : runLoop cfg (n + 1) ls' rest with e2 | ⟨lsf2, es2⟩
          · simp [hr] at h
          · simp only [hr, Except.ok.injEq, Prod.mk.injEq] at h
            obtain ⟨-, rfl⟩ := h
            rw [List.mem_cons] at he
            rcases he with rfl | he
            · exact hcomp
            · exact ih (n + 1) ls' lsf2 es2 hr e he

theorem runLoop_gap (cfg : LoopCfg) (inps : List Inp) :
    ∀ (n : ℕ) (ls lsf : LoopSt) (es : List Emission),
    runLoop cfg n ls inps = .ok (lsf, es) → gapOK ls.last_emit es := by
  induction inps with
  | nil =>
    intro n ls lsf es h
    simp only [runLoop, Except.ok.injEq, Prod.mk.injEq] at h
    obtain ⟨-, rfl⟩ := h
    trivial
  | cons inp rest ih =>
    intro n ls lsf es h
    simp only [runLoop] at h
    rcases hs : stepLoop cfg ls inp with e' | ⟨ls', o⟩
    · simp [hs] at h
    · have hle := stepLoop_last_emit_le hs
      rcases o with _ | em
      · simp only [hs] at h
        exact gapOK_mono hle es (ih n ls' lsf es h)
      · obtain ⟨het, hle', htick, -, -⟩ := stepLoop_emit hs
        have h1 : qadd ls.last_emit 1 ≤ em.t := by
          rw [qadd_eq, het]
          rw [qsub_eq] at htick
          linarith
        simp only [hs] at h
        split at h
        · simp only [Except.ok.injEq, Prod.mk.injEq] at h
          obtain ⟨-, rfl⟩ := h
          exact ⟨h1, trivial⟩
        · rcases hr : runLoop cfg (n + 1) ls' rest with e2 | ⟨lsf2, es2⟩
          · simp [hr] at h
          · simp only [hr, Except.ok.injEq, Prod.mk.injEq] at h
            obtain ⟨-, rfl⟩ := h
            refine ⟨h1, ?_⟩
            have hg := ih (n + 1) ls' lsf2 es2 hr
            rw [hle', ← het] at hg
            exact hg

theorem stepLoop_partial_emit (ls : LoopSt) (inp : Inp) (ts : String)
    (fs : List String) (u : Dict) (hf : frameOK inp.line = some (ts, fs))
    (hp : parse_sentence ts fs inp.nowDT = .ok u)
    (ht : 1 ≤ qsub inp.t ls.last_emit) :
    stepLoop ⟨true, false⟩ ls inp =
      .ok (⟨stAfter ls u inp.t, inp.t⟩, some ⟨inp.t, stAfter ls u inp.t⟩) := by
  rw [stepLoop_eq]
  simp only [hf, hp]
  rw [if_pos ht]
  have hg : gateB ⟨true, false⟩ (stAfter ls u inp.t) = true := by
    simp [gateB]
  rw [hg]
  simp

/-- Claim C7 (amended): (a) whenever partial mode is off or the `once` loop is
running, every emitted record's snapshot passes the completeness test (lat,
lon and utc_time all present); (b) in partial mode the continuous loop emits
on any cadence tick at which a frame decodes, regardless of completeness;
(c) in every mode, consecutive emission times are at least one second apart,
each at least one second after the previous `last_emit` value.  The original
claim's "in partial mode a record is emitted on the first cadence tick
regardless of completeness" fails for the `once` loop, whose gate ignores
`args.partial` (see the counterexample). -/
theorem C7_theorem :
    (∀ (cfg : LoopCfg) (n : ℕ) (ls lsf : LoopSt) (inps : List Inp)
        (es : List Emission), cfg.pmode = false ∨ cfg.once = true →
        runLoop cfg n ls inps = .ok (lsf, es) →
        ∀ e ∈ es, completeB e.snapshot = true) ∧
    (∀ (ls : LoopSt) (inp : Inp) (ts : String) (fs : List String) (u : Dict),
        frameOK inp.line = some (ts, fs) →
        parse_sentence ts fs inp.nowDT = .ok u →
        1 ≤ qsub inp.t ls.last_emit →
        stepLoop ⟨true, false⟩ ls inp =
          .ok (⟨stAfter ls u inp.t, inp.t⟩, some ⟨inp.t, stAfter ls u inp.t⟩)) ∧
    (∀ (cfg : LoopCfg) (n : ℕ) (ls lsf : LoopSt) (inps : List Inp)
        (es : List Emission), runLoop cfg n ls inps = .ok (lsf, es) →
        gapOK ls.last_emit es) :=
  ⟨fun cfg n ls lsf inps es hm hr => runLoop_complete cfg hm inps n ls lsf es hr,
   fun ls inp ts fs u hf hp ht => stepLoop_partial_emit ls inp ts fs u hf hp ht,
   fun cfg n ls lsf inps es hr => runLoop_gap cfg inps n ls lsf es hr⟩

/-- The original claim C7 is refuted in the `--once` loop: its gate tests
completeness alone and ignores `args.partial`, so in partial `once` mode the
first cadence tick with an incomplete state emits nothing (while the
continuous partial loop emits on the very same input), even though the tick
fired (the step returns `last_emit` advanced to the sample time). -/
theorem C7_counterexample :
    (runLoop ⟨true, true⟩ 0 ⟨[], 0⟩ [inpGSV]).map Prod.snd = .ok [] ∧
    (runLoop ⟨true, false⟩ 0 ⟨[], 0⟩ [inpGSV]).map (fun p => p.2.length) = .ok 1 ∧
    stepLoop ⟨true, true⟩ ⟨[], 0⟩ inpGSV =
      .ok (⟨stAfter ⟨[], 0⟩ uGSV inpGSV.t, inpGSV.t⟩, Option.none) ∧
    completeB (stAfter ⟨[], 0⟩ uGSV inpGSV.t) = false :=
  ⟨by decide, by decide, by decide, by decide⟩

/-- Witness for C7: on a one-RMC-frame run of the non-partial continuous loop
every emitted snapshot is complete and the emission gaps hold, and the
partial continuous loop emits on a GSV frame at a cadence tick. -/
theorem C7_witness :
    emsA.all (fun e => completeB e.snapshot) = true ∧
    stepLoop ⟨true, false⟩ ⟨[], 0⟩ inpGSV =
      .ok (⟨stAfter ⟨[], 0⟩ uGSV inpGSV.t, inpGSV.t⟩,
           some ⟨inpGSV.t, stAfter ⟨[], 0⟩ uGSV inpGSV.t⟩) ∧
    gapOK 0 emsA := by
  refine ⟨?_, ?_, ?_⟩
  · exact List.all_eq_true.mpr
      (C7_theorem.1 ⟨false, false⟩ 0 ⟨[], 0⟩ lsfA [inpRMC] emsA (Or.inl rfl) (by decide))
  · exact C7_theorem.2.1 ⟨[], 0⟩ inpGSV "GPGSV" ["3", "1", "07"] uGSV (by decide)
      (by decide) (by decide)
  · exact C7_theorem.2.2 ⟨false, false⟩ 0 ⟨[], 0⟩ lsfA [inpRMC] emsA (by decide)

theorem chop3_decomp (r : List Char) : ∃ p,
    r = p ++ chopIf '\r' (chopIf '\n' (chopIf '\n' r)) ∧
    (p = [] ∨ p = ['\n'] ∨ p = ['\n', '\n'] ∨ p = ['\r'] ∨ p = ['\n', '\r'] ∨
      p = ['\n', '\n', '\r']) := by
  rcases r with _ | ⟨c1, r1⟩
  · exact ⟨[], rfl, Or.inl rfl⟩
  by_cases hc1 : c1 = '\n'
  · subst hc1
    rcases r1 with _ | ⟨c2, r2⟩
    · exact ⟨['\n'], by simp [chopIf], by simp⟩
    by_cases hc2 : c2 = '\n'
    · subst hc2
      rcases r2 with _ | ⟨c3, r3⟩
      · exact ⟨['\n', '\n'], by simp [chopIf], by simp⟩
      by_cases hc3 : c3 = '\r'
      · subst hc3
        exact ⟨['\n', '\n', '\r'], by simp [chopIf], by simp⟩
      · exact ⟨['\n', '\n'], by simp [chopIf, hc3], by simp⟩
    · by_cases hc2r : c2 = '\r'
      · subst hc2r
        exact ⟨['\n', '\r'], by simp [chopIf], by simp⟩
      · exact ⟨['\n'], by simp [chopIf, hc2, hc2r], by simp⟩
  · by_cases hc1r : c1 = '\r'
    · subst hc1r
      exact ⟨['\r'], by simp [chopIf], by simp⟩
    · exact ⟨[], by simp [chopIf, hc1, hc1r], by simp⟩

theorem splitFirst_some {c : Char} : ∀ {l a b : List Char},
    splitFirst c l = some (a, b) → l = a ++ c :: b ∧ c ∉ a := by
  intro l
  induction l with
  | nil =>
    intro a b h
    exact Option.noConfusion h
  | cons x xs ih =>
    intro a b h
    rw [splitFirst] at h
    by_cases hx : x = c
    · rw [if_pos hx] at h
      simp only [Option.some.injEq, Prod.mk.injEq] at h
      obtain ⟨rfl, rfl⟩ := h
      subst hx
      exact ⟨rfl, List.not_mem_nil _⟩
    · rw [if_neg hx] at h
      rcases hsp : splitFirst c xs with _ | ⟨a2, b2⟩
      · rw [hsp] at h
        exact Option.noConfusion h
      · rw [hsp] at h
        simp only [Option.map_some', Option.some.injEq, Prod.mk.injEq] at h
        obtain ⟨rfl, rfl⟩ := h
        obtain ⟨he, hnm⟩ := ih hsp
        constructor
        · rw [List.cons_append, ← he]
        · simp only [List.mem_cons, not_or]
          exact ⟨fun hcx => hx hcx.symm, hnm⟩

theorem splitFirst_append {c : Char} : ∀ (a b : List Char), c ∉ a →
    splitFirst c (a ++ c :: b) = some (a, b) := by
  intro a
  induction a with
  | nil =>
    intro b _
    simp [splitFirst]
  | cons x xs ih =>
    intro b hnm
    have hx : ¬ x = c := fun hxc => hnm (by rw [← hxc]; exact List.mem_cons_self x xs)
    rw [List.cons_append, splitFirst, if_neg hx,
      ih b (fun hm => hnm (List.mem_cons_of_mem x hm))]
    rfl

theorem isHexUp_ne_nl {c : Char} (h : isHexUp c = true) : c ≠ '\n' := by
  intro hc
  subst hc
  exact absurd h (by decide)

theorem isHexUp_ne_cr {c : Char} (h : isHexUp c = true) : c ≠ '\r' := by
  intro hc
  subst hc
  exact absurd h (by decide)

theorem pyUpperChar_of_isHexUp {c : Char} (h : isHexUp c = true) : pyUpperChar c = c := by
  rw [isHexUp, isDigitA] at h
  simp only [Bool.or_eq_true, Bool.and_eq_true, decide_eq_true_eq] at h
  rw [pyUpperChar, if_neg (by omega)]

theorem talkerOK_iff (g : List Char) : talkerOK g = true ↔
    ∃ t1 t2, g = t1 ++ t2 ∧ (t1.length = 2 ∨ t1.length = 3) ∧
      t1.all isUpAlnum = true ∧ t2.length = 3 ∧ t2.all isUpperA = true := by
  constructor
  · intro h
    rw [talkerOK] at h
    simp only [Bool.and_eq_true, Bool.or_eq_true, decide_eq_true_eq] at h
    obtain ⟨⟨hlen, h1⟩, h2⟩ := h
    refine ⟨g.take (g.length - 3), g.drop (g.length - 3),
      (List.take_append_drop _ g).symm, ?_, h1, ?_, h2⟩
    · rw [List.length_take]
      omega
    · rw [List.length_drop]
      omega
  · rintro ⟨t1, t2, rfl, hlen, h1, hlen2, h2⟩
    rw [talkerOK]
    have hl : (t1 ++ t2).length - 3 = t1.length := by
      rw [List.length_append, hlen2]
      omega
    rw [hl, List.take_left, List.drop_left, h1, h2]
    simp only [List.length_append, hlen2, Bool.and_true]
    rcases hlen with h | h <;> rw [h] <;> decide

theorem nmeaMatchL_some {l g1 body hx : List Char}
    (h : nmeaMatchL l = some (g1, body, hx)) :
    ∃ h1 h2 tail, hx = [h1, h2] ∧
      l = '$' :: (g1 ++ [','] ++ body ++ ['*', h1, h2] ++ tail) ∧
      talkerOK g1 = true ∧ body.all (fun ch => ch != '\n') = true ∧
      isHexUp h1 = true ∧ isHexUp h2 = true ∧
      (tail = [] ∨ tail = ['\r'] ∨ tail = ['\n'] ∨ tail = ['\r', '\n'] ∨
        tail = ['\n', '\n'] ∨ tail = ['\r', '\n', '\n']) := by
  rcases l with _ | ⟨c, rest⟩
  · exact Option.noConfusion h
  simp only [nmeaMatchL] at h
  by_cases hc : c = '$'
  · rw [if_pos hc] at h
    subst hc
    rcases hsp : splitFirst ',' rest with _ | ⟨g0, tail0⟩
    · rw [hsp] at h
      exact Option.noConfusion h
    · simp only [hsp] at h
      by_cases htk : talkerOK g0 = true
      · rw [if_pos htk] at h
        rcases hch : chopIf '\r' (chopIf '\n' (chopIf '\n' tail0.reverse)) with
          _ | ⟨h2, _ | ⟨h1, _ | ⟨star, bodyRev⟩⟩⟩
        · rw [hch] at h
          exact Option.noConfusion h
        · rw [hch] at h
          exact Option.noConfusion h
        · rw [hch] at h
          exact Option.noConfusion h
        · simp only [hch] at h
          by_cases hcond : (star = '*' && isHexUp h1 && isHexUp h2 &&
              bodyRev.all (fun ch => ch != '\n')) = true
          · rw [if_pos hcond] at h
            simp only [Option.some.injEq, Prod.mk.injEq] at h
            obtain ⟨rfl, rfl, rfl⟩ := h
            simp only [Bool.and_eq_true, decide_eq_true_eq] at hcond
            obtain ⟨⟨⟨hstar, hh1⟩, hh2⟩, hba⟩ := hcond
            subst hstar
            obtain ⟨p, hp, hpc⟩ := chop3_decomp tail0.reverse
            rw [hch] at hp
            have ht0 : tail0 = bodyRev.reverse ++ ['*', h1, h2] ++ p.reverse := by
              have hq := congrArg List.reverse hp
              rw [List.reverse_reverse] at hq
              rw [hq]
              simp [List.reverse_append]
            obtain ⟨hrest, -⟩ := splitFirst_some hsp
            refine ⟨h1, h2, p.reverse, rfl, ?_, htk, ?_, hh1, hh2, ?_⟩
            · rw [hrest, ht0]
              simp [List.append_assoc]
            · rw [List.all_eq_true] at hba ⊢
              intro x hxm
              exact hba x (List.mem_reverse.mp hxm)
            · rcases hpc with rfl | rfl | rfl | rfl | rfl | rfl <;> decide
          · rw [if_neg hcond] at h
            exact Option.noConfusion h
      · rw [if_neg htk] at h
        exact Option.noConfusion h
  · rw [if_neg hc] at h
    exact Option.noConfusion h

theorem nmeaMatchL_mk (t1 t2 body : List Char) (h1 h2 : Char) (tail : List Char)
    (htk : talkerOK (t1 ++ t2) = true)
    (hb : body.all (fun ch => ch != '\n') = true)
    (hh1 : isHexUp h1 = true) (hh2 : isHexUp h2 = true)
    (htl : tail = [] ∨ tail = ['\r'] ∨ tail = ['\n'] ∨ tail = ['\r', '\n'] ∨
      tail = ['\n', '\n'] ∨ tail = ['\r', '\n', '\n']) :
    nmeaMatchL ('$' :: (t1 ++ t2 ++ [','] ++ body ++ ['*', h1, h2] ++ tail)) =
      some (t1 ++ t2, body, [h1, h2]) := by
  have hnc : ',' ∉ t1 ++ t2 := by
    intro hm
    rw [talkerOK] at htk
    simp only [Bool.and_eq_true, Bool.or_eq_true, decide_eq_true_eq] at htk
    obtain ⟨⟨-, hta⟩, htd⟩ := htk
    rw [← List.take_append_drop ((t1 ++ t2).length - 3) (t1 ++ t2)] at hm
    rcases List.mem_append.mp hm with hm1 | hm2
    · exact absurd (by rw [List.all_eq_true] at hta; exact hta ',' hm1) (by decide)
    · exact absurd (by rw [List.all_eq_true] at htd; exact htd ',' hm2) (by decide)
  have hsp : splitFirst ',' (t1 ++ t2 ++ [','] ++ body ++ ['*', h1, h2] ++ tail) =
      some (t1 ++ t2, body ++ ['*', h1, h2] ++ tail) := by
    have hq := splitFirst_append (t1 ++ t2) (body ++ ['*', h1, h2] ++ tail) hnc
    simpa [List.append_assoc] using hq
  have hch : chopIf '\r' (chopIf '\n' (chopIf '\n'
      ((body ++ ['*', h1, h2] ++ tail).reverse))) = h2 :: h1 :: '*' :: body.reverse := by
    have hrev : (body ++ ['*', h1, h2] ++ tail).reverse =
        tail.reverse ++ (h2 :: h1 :: '*' :: body.reverse) := by
      simp [List.reverse_append]
    rw [hrev]
    rcases htl with rfl | rfl | rfl | rfl | rfl | rfl <;>
      simp [chopIf, isHexUp_ne_nl hh2, isHexUp_ne_cr hh2]
  have hba : (body.reverse).all (fun ch => ch != '\n') = true := by
    rw [List.all_eq_true] at hb ⊢
    intro x hxm
    exact hb x (List.mem_reverse.mp hxm)
  simp only [nmeaMatchL, reduceIte, hsp, if_pos htk, hch, hh1, hh2, hba,
    List.all_reverse, decide_True, Bool.and_self, Bool.and_true, List.reverse_reverse,
    if_true]

/-- Claim C3 (amended): the validator accepts a line iff it has the shape
`$TALKER-SENTENCE,body*HH` where the talker is 2-3 characters of `[A-Z0-9]`
(digits allowed, unlike the claim), the sentence type is 3 uppercase letters,
the body is newline-free, the two checksum digits are themselves uppercase
hex (a lowercase checksum is rejected: the regex class `[0-9A-F]` filters
before the case-insensitive `.upper()` compare, making the claim's
case-insensitive acceptance false), the optional trailing `\r?\n?` may carry
one extra final newline (Python `$`), and the transmitted digits equal the
XOR of the bytes between `$` and the final `*`, uppercase-hex-encoded. -/
theorem C3_theorem (s : String) : nmea_accept s = true ↔ specShapeAmended s := by
  constructor
  · intro h
    rw [nmea_accept] at h
    rcases hm : nmeaMatchL s.toList with _ | ⟨g1, body, hx⟩
    · rw [hm] at h
      exact Bool.noConfusion h
    · simp only [hm] at h
      obtain ⟨h1, h2, tail, rfl, hl, htk, hb, hh1, hh2, htl⟩ := nmeaMatchL_some hm
      rw [talkerOK_iff] at htk
      obtain ⟨t1, t2, rfl, hlen1, ha1, hlen2, ha2⟩ := htk
      refine ⟨t1, t2, body, h1, h2, tail, hl, hlen1, ha1, hlen2, ha2, hb, ?_, htl, ?_⟩
      · rw [hh1, hh2]
        rfl
      · rw [List.map_cons, List.map_cons, List.map_nil, pyUpperChar_of_isHexUp hh1,
          pyUpperChar_of_isHexUp hh2] at h
        exact eq_of_beq h
  · rintro ⟨t1, t2, body, h1, h2, tail, hl, hlen1, ha1, hlen2, ha2, hb, hhx, htl, hcs⟩
    rw [Bool.and_eq_true] at hhx
    obtain ⟨hh1, hh2⟩ := hhx
    have htk : talkerOK (t1 ++ t2) = true :=
      (talkerOK_iff _).mpr ⟨t1, t2, rfl, hlen1, ha1, hlen2, ha2⟩
    have hmk : nmeaMatchL s.toList = some (t1 ++ t2, body, [h1, h2]) := by
      rw [hl]
      exact nmeaMatchL_mk t1 t2 body h1 h2 tail htk hb hh1 hh2 htl
    rw [nmea_accept]
    simp only [hmk]
    rw [List.map_cons, List.map_cons, List.map_nil, pyUpperChar_of_isHexUp hh1,
      pyUpperChar_of_isHexUp hh2, beq_iff_eq]
    exact hcs

/-- The original claim C3 is refuted on case-insensitive checksum comparison:
the line `$GPGLL,*7c` has the claimed shape (its XOR is 7C, equal to the
transmitted `7c` compared case-insensitively), yet the validator rejects it,
because `NMEA_RE`'s `[0-9A-F]` group never matches a lowercase digit and the
`.upper()` call happens only after the regex has already failed. -/
theorem C3_counterexample :
    specShapeClaimed "$GPGLL,*7c" ∧ nmea_accept "$GPGLL,*7c" = false :=
  ⟨⟨['G', 'P'], ['G', 'L', 'L'], [], '7', 'c', [], by decide⟩, by decide⟩

/-- Witness for C3: a talker with digits (`$11GGA,*6D`) satisfies the amended
shape, via the equivalence at a concrete accepted line. -/
theorem C3_witness : specShapeAmended "$11GGA,*6D" :=
  ( C3_theorem "$11GGA,*6D").mp (by decide)

end GpsRead
